import Mathlib

/-!
# Verification development for `pkg/storage/batch.go` and `internal/gen/keys/keys.go`

Shallow embedding of `StorageAPI.UpsertBuckets` (bucket reconciliation) and of
`keys.Run` / `keys.getGitBranch` / `keys.NewJWTToken` (credential derivation).

Conventions
* Go `error` results are `Option ε` (`none` is `nil`) or `Except ε α`.
* The remote storage service is a state machine over an abstract state `σ`; every call
  that `UpsertBuckets` issues is appended, together with its answer, to a trace.
* A Go `map` that is ranged over is given as the list of its entries in the order in which
  the `range` loop visits them (keys of a map are pairwise distinct).
* A Go `string` is a Lean `String`, its bytes are its UTF-8 encoding; a byte and a `uint32`
  are natural numbers, reduced modulo `2 ^ 8` and `2 ^ 32` where the code computes them.
* Functions of other packages (`utils`, go-git, `jwt`, `time`) are parameters, gathered in
  `keys.Env`; `crypto/sha256` and `encoding/hex` are written out.
-/

namespace storage

/-! ## Data model -/

/-- Modelled from the spec: the type `config.bucket` (package `pkg/config`, declaration not
among the sources). One value of the desired configuration: visibility flag, maximum object
size in bytes (an unsigned 64-bit integer, held in `Nat`) and allowed MIME types. -/
structure bucket where
  Public : Bool
  FileSizeLimit : Nat
  AllowedMimeTypes : List String
deriving DecidableEq, Repr

/-- Modelled from the spec: the type `BucketProps` (declared in another file of package
`storage`): `{public: bool, maxSizeBytes: int, allowedMimeTypes: sequence<string>}`. -/
structure BucketProps where
  Public : Bool
  FileSizeLimit : Int
  AllowedMimeTypes : List String
deriving DecidableEq, Repr

/-- Modelled from the spec: the type `BucketResponse`, one entry of the listing returned by
`ListBuckets`: name, remote identifier and the current remote properties. -/
structure BucketResponse where
  Name : String
  Id : String
  Public : Bool
  FileSizeLimit : Option Int
  AllowedMimeTypes : List String
deriving DecidableEq, Repr

/-- Body of an `UpdateBucket` call (`UpdateBucketRequest{Id, BucketProps}`). -/
structure UpdateBucketRequest where
  Id : String
  BucketProps : BucketProps
deriving DecidableEq, Repr

/-- Body of a `CreateBucket` call (`CreateBucketRequest{Name, BucketProps}`). -/
structure CreateBucketRequest where
  Name : String
  BucketProps : BucketProps
deriving DecidableEq, Repr

/-- A mutation call issued against the remote bucket directory. `UpsertBuckets` issues no
other kind of mutation (there is no delete call in it). -/
inductive Call where
  | CreateBucket (body : CreateBucketRequest)
  | UpdateBucket (body : UpdateBucketRequest)
deriving DecidableEq, Repr

/-- One record of the trace: the key `name` of the desired entry whose loop iteration
issued the call, the call, and the error it returned (`none` for `nil`). -/
structure Event (ε : Type) where
  entry : String
  call : Call
  err : Option ε
deriving DecidableEq, Repr

/-- The remote bucket directory (`*StorageAPI`), as a state machine over `σ`. The response
bodies of `CreateBucket` and `UpdateBucket` are discarded by `UpsertBuckets` (`_`), so only
the error and the new remote state are kept. -/
structure StorageAPI (σ ε : Type) where
  ListBuckets : σ → Except ε (List BucketResponse) × σ
  CreateBucket : CreateBucketRequest → σ → Option ε × σ
  UpdateBucket : UpdateBucketRequest → σ → Option ε × σ

/-- What one run of `UpsertBuckets` leaves behind: the remote state, the trace of mutation
calls in issue order, the lines written to `os.Stderr`, and the returned `error`. -/
structure Result (σ ε : Type) where
  remote : σ
  calls : List (Event ε)
  stderr : List String
  err : Option ε

/-! ## `UpsertBuckets` -/

/-- Lines 16-19: `exists := make(map[string]string)`, then `exists[b.Name] = b.Id` for each
listed bucket in order; a later insert of the same name overwrites the earlier one. The map is
represented by its lookup function. -/
def existsMap (buckets : List BucketResponse) : String → Option String :=
  buckets.foldl (fun m b => fun name => if name = b.Name then some b.Id else m name)
    (fun _ => none)

/-- Lines 28-32: `for _, keep := range filter { if !keep(bucketId) { continue } }`. The
`continue` belongs to this innermost loop: it moves on to the next predicate. The loop has
no other statement, so it returns nothing. -/
def filterLoop : List (String → Bool) → String → Unit
  | [], _ => ()
  | keep :: rest, bucketId =>
    if !keep bucketId then
      filterLoop rest bucketId
    else
      filterLoop rest bucketId

/-- The conversion `int(x)` of Go from an unsigned 64-bit integer to the 64-bit `int`: the
value is kept modulo `2 ^ 64` and read in two's complement. -/
def int (x : Nat) : Int :=
  if x % 2 ^ 64 < 2 ^ 63 then ((x % 2 ^ 64 : Nat) : Int) else ((x % 2 ^ 64 : Nat) : Int) - 2 ^ 64

/-- Lines 21-25: the `BucketProps` built from a desired entry. -/
def propsOf (b : bucket) : BucketProps :=
  { Public := b.Public
    FileSizeLimit := int b.FileSizeLimit
    AllowedMimeTypes := b.AllowedMimeTypes }

/-- Lines 20-52: the loop over the desired configuration, visiting `bucketConfig` in the
given order, from remote state `s`. -/
def upsertLoop {σ ε : Type} (api : StorageAPI σ ε)
    (ex : String → Option String) (filter : List (String → Bool)) :
    List (String × bucket) → σ → Result σ ε
  | [], s => { remote := s, calls := [], stderr := [], err := none }
  | (name, b) :: rest, s =>
    let props := propsOf b
    match ex name with
    | some bucketId =>
      let _ := filterLoop filter bucketId
      let line := "Updating storage bucket: " ++ bucketId
      let body : UpdateBucketRequest := { Id := bucketId, BucketProps := props }
      match api.UpdateBucket body s with
      | (some e, s1) =>
        { remote := s1, calls := [⟨name, Call.UpdateBucket body, some e⟩],
          stderr := [line], err := some e }
      | (none, s1) =>
        let r := upsertLoop api ex filter rest s1
        { r with calls := ⟨name, Call.UpdateBucket body, none⟩ :: r.calls,
                 stderr := line :: r.stderr }
    | none =>
      let line := "Creating storage bucket: " ++ name
      let body : CreateBucketRequest := { Name := name, BucketProps := props }
      match api.CreateBucket body s with
      | (some e, s1) =>
        { remote := s1, calls := [⟨name, Call.CreateBucket body, some e⟩],
          stderr := [line], err := some e }
      | (none, s1) =>
        let r := upsertLoop api ex filter rest s1
        { r with calls := ⟨name, Call.CreateBucket body, none⟩ :: r.calls,
                 stderr := line :: r.stderr }

/-- `func (s *StorageAPI) UpsertBuckets(ctx, bucketConfig, filter ...func(string) bool) error`. -/
def UpsertBuckets {σ ε : Type} (api : StorageAPI σ ε)
    (bucketConfig : List (String × bucket)) (filter : List (String → Bool)) (s : σ) :
    Result σ ε :=
  match api.ListBuckets s with
  | (Except.error e, s1) => { remote := s1, calls := [], stderr := [], err := some e }
  | (Except.ok buckets, s1) => upsertLoop api (existsMap buckets) filter bucketConfig s1

/-- The new remote state after a mutation call. -/
def StorageAPI.apply {σ ε : Type} (api : StorageAPI σ ε) (s : σ) : Call → σ
  | Call.CreateBucket body => (api.CreateBucket body s).2
  | Call.UpdateBucket body => (api.UpdateBucket body s).2

/-- The trace record of the loop iteration for the desired entry `p`, given the answer
`err` of its call: an update of the indexed identifier when the name is in the index, a
create of the name otherwise. -/
def eventOf {ε : Type} (ex : String → Option String)
    (p : String × bucket) (err : Option ε) : Event ε :=
  match ex p.1 with
  | some bucketId => ⟨p.1, Call.UpdateBucket ⟨bucketId, propsOf p.2⟩, err⟩
  | none => ⟨p.1, Call.CreateBucket ⟨p.1, propsOf p.2⟩, err⟩

/-- Whether a call is a `CreateBucket` carrying the name `name`. -/
def Call.createsName (name : String) : Call → Bool
  | Call.CreateBucket body => body.Name = name
  | Call.UpdateBucket _ => false

/-- Whether a call is an `UpdateBucket` targeting the identifier `id`. -/
def Call.updatesId (id : String) : Call → Bool
  | Call.CreateBucket _ => false
  | Call.UpdateBucket body => body.Id = id

/-! ## A concrete remote used for the examples -/

/-- A remote that lists `listing`, counts the mutation calls it has received, and answers
the call number `failAt` (counting from 1) with the error `"transport error"`; `failAt = 0`
never fails. -/
def countingAPI (listing : List BucketResponse) (failAt : Nat) : StorageAPI Nat String where
  ListBuckets := fun s => (Except.ok listing, s)
  CreateBucket := fun _ s => (if s + 1 = failAt then some "transport error" else none, s + 1)
  UpdateBucket := fun _ s => (if s + 1 = failAt then some "transport error" else none, s + 1)

end storage

/-! # `internal/gen/keys/keys.go` -/

/-! ## `crypto/sha256` (FIPS 180-4), on bytes and 32-bit words held in `Nat` -/

namespace sha256

/-- The round constants `_K`. -/
def K : List Nat := [
  0x428a2f98, 0x71374491, 0xb5c0fbcf, 0xe9b5dba5, 0x3956c25b, 0x59f111f1, 0x923f82a4, 0xab1c5ed5,
  0xd807aa98, 0x12835b01, 0x243185be, 0x550c7dc3, 0x72be5d74, 0x80deb1fe, 0x9bdc06a7, 0xc19bf174,
  0xe49b69c1, 0xefbe4786, 0x0fc19dc6, 0x240ca1cc, 0x2de92c6f, 0x4a7484aa, 0x5cb0a9dc, 0x76f988da,
  0x983e5152, 0xa831c66d, 0xb00327c8, 0xbf597fc7, 0xc6e00bf3, 0xd5a79147, 0x06ca6351, 0x14292967,
  0x27b70a85, 0x2e1b2138, 0x4d2c6dfc, 0x53380d13, 0x650a7354, 0x766a0abb, 0x81c2c92e, 0x92722c85,
  0xa2bfe8a1, 0xa81a664b, 0xc24b8b70, 0xc76c51a3, 0xd192e819, 0xd6990624, 0xf40e3585, 0x106aa070,
  0x19a4c116, 0x1e376c08, 0x2748774c, 0x34b0bcb5, 0x391c0cb3, 0x4ed8aa4a, 0x5b9cca4f, 0x682e6ff3,
  0x748f82ee, 0x78a5636f, 0x84c87814, 0x8cc70208, 0x90befffa, 0xa4506ceb, 0xbef9a3f7, 0xc67178f2]

/-- The eight 32-bit words of the hash state. -/
structure digest where
  h0 : Nat
  h1 : Nat
  h2 : Nat
  h3 : Nat
  h4 : Nat
  h5 : Nat
  h6 : Nat
  h7 : Nat
deriving DecidableEq, Repr

/-- The initial hash value. -/
def init : digest :=
  ⟨0x6a09e667, 0xbb67ae85, 0x3c6ef372, 0xa54ff53a, 0x510e527f, 0x9b05688c, 0x1f83d9ab, 0x5be0cd19⟩

/-- Rotation of a 32-bit word to the right (`bits.RotateLeft32(x, -n)`). -/
def rotr (x n : Nat) : Nat := ((x >>> n) ||| (x <<< (32 - n))) % 2 ^ 32

/-- Addition of `uint32` values. -/
def add32 (x y : Nat) : Nat := (x + y) % 2 ^ 32

/-- Bitwise complement of a `uint32` value. -/
def not32 (x : Nat) : Nat := 2 ^ 32 - 1 - x % 2 ^ 32

/-- The first `n` big-endian 32-bit words of a byte sequence. -/
def words : Nat → List Nat → List Nat
  | 0, _ => []
  | n + 1, b0 :: b1 :: b2 :: b3 :: rest =>
    (((b0 % 256) <<< 24) ||| ((b1 % 256) <<< 16) ||| ((b2 % 256) <<< 8) ||| (b3 % 256))
      :: words n rest
  | _ + 1, _ => []

/-- Extends the message schedule by `n` words; the schedule is held latest word first, so
`w[i-2]`, `w[i-7]`, `w[i-15]` and `w[i-16]` are at positions 1, 6, 14 and 15. -/
def schedule : Nat → List Nat → List Nat
  | 0, w => w
  | n + 1, w =>
    let v1 := w.getD 1 0
    let v2 := w.getD 14 0
    let t1 := rotr v1 17 ^^^ rotr v1 19 ^^^ (v1 >>> 10)
    let t2 := rotr v2 7 ^^^ rotr v2 18 ^^^ (v2 >>> 3)
    schedule n (add32 (add32 (add32 t1 (w.getD 6 0)) t2) (w.getD 15 0) :: w)

/-- One round of the compression function. -/
def round (d : digest) (k w : Nat) : digest :=
  let t1 := add32 (add32 (add32 (add32 d.h7 (rotr d.h4 6 ^^^ rotr d.h4 11 ^^^ rotr d.h4 25))
    ((d.h4 &&& d.h5) ^^^ (not32 d.h4 &&& d.h6))) k) w
  let t2 := add32 (rotr d.h0 2 ^^^ rotr d.h0 13 ^^^ rotr d.h0 22)
    ((d.h0 &&& d.h1) ^^^ (d.h0 &&& d.h2) ^^^ (d.h1 &&& d.h2))
  ⟨add32 t1 t2, d.h0, d.h1, d.h2, add32 d.h3 t1, d.h4, d.h5, d.h6⟩

/-- The rounds of one block, over the round constants and the schedule. -/
def rounds : List Nat → List Nat → digest → digest
  | k :: ks, w :: ws, d => rounds ks ws (round d k w)
  | _, _, d => d

/-- The compression of one 64-byte block `p` into the state `d`. -/
def block (d : digest) (p : List Nat) : digest :=
  let w := (schedule 48 (words 16 p).reverse).reverse
  let r := rounds K w d
  ⟨add32 d.h0 r.h0, add32 d.h1 r.h1, add32 d.h2 r.h2, add32 d.h3 r.h3,
   add32 d.h4 r.h4, add32 d.h5 r.h5, add32 d.h6 r.h6, add32 d.h7 r.h7⟩

/-- The compression of the first `n` 64-byte blocks of `p`. -/
def blocks : Nat → List Nat → digest → digest
  | 0, _, d => d
  | n + 1, p, d => blocks n (p.drop 64) (block d (p.take 64))

/-- The `n` low bytes of `x`, big endian. -/
def be (n : Nat) (x : Nat) : List Nat :=
  (List.range n).reverse.map fun i => (x >>> (8 * i)) % 256

/-- The padded message: the data, the byte `0x80`, zero bytes up to 56 modulo 64, and the
bit length as a big-endian `uint64`. -/
def pad (data : List Nat) : List Nat :=
  data ++ 0x80 :: List.replicate ((119 - data.length % 64) % 64) 0
    ++ be 8 ((data.length * 8) % 2 ^ 64)

/-- The hash state after all blocks of the padded message. -/
def sum (data : List Nat) : digest :=
  let p := pad data
  blocks (p.length / 64) p init

/-- `sha256.Sum256(data)`: the 32 bytes of the digest, each state word big endian. -/
def Sum256 (data : List Nat) : List Nat :=
  let d := sum data
  be 4 d.h0 ++ be 4 d.h1 ++ be 4 d.h2 ++ be 4 d.h3 ++ be 4 d.h4 ++ be 4 d.h5 ++ be 4 d.h6
    ++ be 4 d.h7

end sha256

namespace hex

/-- The table `hextable = "0123456789abcdef"` of `encoding/hex`. -/
def hextable : List Char := "0123456789abcdef".data

/-- `hex.EncodeToString(src)`: for each byte `v`, `hextable[v>>4]` then `hextable[v&0x0f]`. -/
def EncodeToString (src : List Nat) : String :=
  String.mk (src.flatMap fun v =>
    [hextable.getD ((v % 256) >>> 4) '0', hextable.getD (v &&& 0x0f) '0'])

end hex

namespace keys

/-! ## Strings, maps and tokens -/

/-- The conversion `[]byte(s)`: the UTF-8 bytes of a string. -/
def bytes (s : String) : List Nat :=
  (s.data.flatMap String.utf8EncodeChar).map UInt8.toNat

/-- `strings.Join(elems, sep)`. -/
def Join : List String → String → String
  | [], _ => ""
  | e :: rest, sep => rest.foldl (fun acc s => acc ++ sep ++ s) e

/-- A Go `map[string]string`, held as the list of its entries; keys are pairwise distinct. -/
abbrev GoMap := List (String × String)

/-- The assignment `m[k] = v`: replaces the value of an existing key, adds a new key
otherwise. -/
def GoMap.set (m : GoMap) (k v : String) : GoMap :=
  if m.any (fun p => p.1 = k) then m.map (fun p => if p.1 = k then (k, v) else p)
  else m ++ [(k, v)]

/-- A map composite literal `map[string]string{k1: v1, ...}` with non-constant keys: the
pairs are stored in source order. -/
def GoMap.literal (entries : List (String × String)) : GoMap :=
  entries.foldl (fun m p => m.set p.1 p.2) []

/-- The lookup `m[k]` (with the `ok` flag). -/
def GoMap.get (m : GoMap) (k : String) : Option String :=
  (m.find? (fun p => p.1 = k)).map Prod.snd

/-- `jwt.RegisteredClaims`, with the two fields that `NewJWTToken` sets. -/
structure RegisteredClaims (τ : Type) where
  Issuer : String
  ExpiresAt : Option τ
deriving DecidableEq, Repr

/-- `type CustomClaims struct { Ref; Role; jwt.RegisteredClaims }`. -/
structure CustomClaims (τ : Type) where
  Ref : String
  Role : String
  RegisteredClaims : RegisteredClaims τ
deriving DecidableEq, Repr

/-- `jwt.Token`: the signing method (by its `alg` name) and the claims. -/
structure Token (τ : Type) where
  Method : String
  Claims : CustomClaims τ
deriving DecidableEq, Repr

/-- `type CustomName struct`: the names under which the five values are output. -/
structure CustomName where
  DbHost : String
  DbPassword : String
  JWTSecret : String
  AnonKey : String
  ServiceRoleKey : String
deriving DecidableEq, Repr

/-- The part of `resp.JSON200` that `Run` reads: the pointer field `JwtSecret`. -/
structure PostgrestConfig where
  JwtSecret : Option String
deriving DecidableEq, Repr

/-- The response of `GetPostgRESTConfigWithResponse`: the pointer `JSON200` and the body. -/
structure Response where
  JSON200 : Option PostgrestConfig
  Body : String
deriving DecidableEq, Repr

/-- The fields of the process-wide `utils.Config.Auth` that `Run` assigns. -/
structure Auth where
  JwtSecret : String
  AnonKey : String
  ServiceRoleKey : String
deriving DecidableEq, Repr

/-- The collaborators of `keys.go` that live outside the package, as functions: project
file and control-plane API (`utils`), the repository accessor (`utils.GetGitRoot`, go-git),
the clock (`time`), and the token signer (`jwt`). `Fs` is `afero.Fs`, `ε` is `error`, `τ` is
`time.Time`. -/
structure Env (Fs ε τ : Type) where
  Repo : Type
  Reference : Type
  LoadProjectRef : Fs → Except ε String
  GetPostgRESTConfigWithResponse : String → Except ε Response
  errorsNew : String → ε
  /-- `utils.GetGitRoot(fsys) (*string, error)`: a non-nil error, or with a nil error the
  pointer to the root, which may be nil (`none`). -/
  GetGitRoot : Fs → Except ε (Option String)
  PlainOpen : String → Except ε Repo
  Head : Repo → Except ε Reference
  Short : Reference → String
  Now : τ
  AddDate : τ → Int → Int → Int → τ
  NewNumericDate : τ → τ
  SignedString : Token τ → List Nat → Except ε String

/-- How a run of `Run` ends: with a non-nil error returned before the encoder is called,
with the run-time panic of dereferencing a nil pointer (`*resp.JSON200.JwtSecret`, or
`*gitRoot` in `getGitBranch`), or with the call
`utils.EncodeOutput(format, os.Stdout, m)`, whose result `Run` returns. -/
inductive Outcome (ε : Type) where
  | error (e : ε)
  | nilDereference
  | EncodeOutput (format : String) (m : GoMap)
deriving DecidableEq, Repr

/-! ## The functions of `keys.go` -/

/-- `func NewJWTToken(ref, role string, expiry time.Time) *jwt.Token`. -/
def NewJWTToken {Fs ε τ : Type} (env : Env Fs ε τ) (ref role : String) (expiry : τ) :
    Token τ :=
  let claims : CustomClaims τ :=
    { Ref := ref
      Role := role
      RegisteredClaims :=
        { ExpiresAt := some (env.NewNumericDate expiry)
          Issuer := "supabase" } }
  { Method := "HS256", Claims := claims }

/-- `func getGitBranch(fsys afero.Fs) string`. The result is `some` of the returned string,
or `none` when the function panics: `*gitRoot` is evaluated whenever `GetGitRoot` returns a
nil error, also when the root pointer is nil. -/
def getGitBranch {Fs ε τ : Type} (env : Env Fs ε τ) (fsys : Fs) : Option String :=
  let branch := "main"
  match env.GetGitRoot fsys with
  | Except.ok gitRoot =>
    match gitRoot with
    | none => none
    | some root =>
      match env.PlainOpen root with
      | Except.ok repo =>
        match env.Head repo with
        | Except.ok ref => some (env.Short ref)
        | Except.error _ => some branch
      | Except.error _ => some branch
  | Except.error _ => some branch

/-- Lines 62-68 of `Run`: the value of the local `password`, from the project reference, the
JWT secret and the branch. -/
def password (projectRef jwtSecret branch : String) : String :=
  let key := Join [projectRef, jwtSecret, branch] ":"
  let hash := sha256.Sum256 (bytes key)
  hex.EncodeToString hash

/-- `func Run(ctx, names CustomName, format string, fsys afero.Fs) error`, from the value
`cfg` of `utils.Config.Auth`; returns its new value and how the run ends. When a signing
fails, the key field is assigned the empty string that comes with the error. -/
def Run {Fs ε τ : Type} (env : Env Fs ε τ) (names : CustomName) (format : String) (fsys : Fs)
    (cfg : Auth) : Auth × Outcome ε :=
  match env.LoadProjectRef fsys with
  | Except.error e => (cfg, Outcome.error e)
  | Except.ok projectRef =>
  match env.GetPostgRESTConfigWithResponse projectRef with
  | Except.error e => (cfg, Outcome.error e)
  | Except.ok resp =>
  match resp.JSON200 with
  | none =>
    (cfg, Outcome.error (env.errorsNew ("Unexpected error retrieving JWT secret: " ++ resp.Body)))
  | some json200 =>
  match json200.JwtSecret with
  | none => (cfg, Outcome.nilDereference)
  | some jwtSecret =>
  let cfg1 := { cfg with JwtSecret := jwtSecret }
  match getGitBranch env fsys with
  | none => (cfg1, Outcome.nilDereference)
  | some branch =>
  let password := password projectRef cfg1.JwtSecret branch
  let expiry := env.AddDate env.Now 10 0 0
  let anonToken := NewJWTToken env projectRef "anon" expiry
  match env.SignedString anonToken (bytes cfg1.JwtSecret) with
  | Except.error e => ({ cfg1 with AnonKey := "" }, Outcome.error e)
  | Except.ok anonKey =>
  let cfg2 := { cfg1 with AnonKey := anonKey }
  let serviceToken := NewJWTToken env projectRef "service_role" expiry
  match env.SignedString serviceToken (bytes cfg2.JwtSecret) with
  | Except.error e => ({ cfg2 with ServiceRoleKey := "" }, Outcome.error e)
  | Except.ok serviceRoleKey =>
  let cfg3 := { cfg2 with ServiceRoleKey := serviceRoleKey }
  (cfg3, Outcome.EncodeOutput format (GoMap.literal [
    (names.DbHost, projectRef ++ "-" ++ branch ++ ".fly.dev"),
    (names.DbPassword, password),
    (names.JWTSecret, cfg3.JwtSecret),
    (names.AnonKey, cfg3.AnonKey),
    (names.ServiceRoleKey, cfg3.ServiceRoleKey)]))

/-! ## A concrete environment used for the examples -/

/-- An environment with project reference `"abc"`, a control plane that returns the JWT
secret `secret`, no git repository under the root, a clock in seconds, and a signer that
accepts every key (as an HMAC does) and returns the reference, the role and the key in
hexadecimal, separated by dots. -/
def exampleEnv (secret : String) : Env Unit String Nat where
  Repo := Unit
  Reference := String
  LoadProjectRef := fun _ => Except.ok "abc"
  GetPostgRESTConfigWithResponse := fun _ => Except.ok ⟨some ⟨some secret⟩, ""⟩
  errorsNew := fun msg => msg
  GetGitRoot := fun _ => Except.error "stat .git: file does not exist"
  PlainOpen := fun _ => Except.ok ()
  Head := fun _ => Except.ok "refs/heads/main"
  Short := fun ref => ref
  Now := 0
  AddDate := fun t years _ _ => t + 31536000 * years.toNat
  NewNumericDate := fun t => t
  SignedString := fun token key =>
    Except.ok (token.Claims.Ref ++ "." ++ token.Claims.Role ++ "." ++ hex.EncodeToString key)

/-- The example environment with a signer that rejects the empty key. -/
def strictEnv (secret : String) : Env Unit String Nat :=
  { exampleEnv secret with
    SignedString := fun token key =>
      match key with
      | [] => Except.error "key is empty"
      | _ :: _ =>
        Except.ok (token.Claims.Ref ++ "." ++ token.Claims.Role ++ "." ++ hex.EncodeToString key) }

/-- The example environment with a root lookup that returns a nil root and a nil error. -/
def nilRootEnv (secret : String) : Env Unit String Nat :=
  { exampleEnv secret with GetGitRoot := fun _ => Except.ok none }

/-- The names given by the `default=` parts of the struct tags of `CustomName`. -/
def defaultNames : CustomName :=
  { DbHost := "NEXT_PUBLIC_SUPABASE_URL"
    DbPassword := "SUPABASE_DB_PASSWORD"
    JWTSecret := "SUPABASE_AUTH_JWT_SECRET"
    AnonKey := "SUPABASE_AUTH_ANON_KEY"
    ServiceRoleKey := "SUPABASE_AUTH_SERVICE_ROLE_KEY" }

/-- The low 32 bits of the eight words of the hash state of a message. -/
def stateWords (x : List Nat) :
    Fin (2 ^ 32) × Fin (2 ^ 32) × Fin (2 ^ 32) × Fin (2 ^ 32) × Fin (2 ^ 32) × Fin (2 ^ 32) ×
      Fin (2 ^ 32) × Fin (2 ^ 32) :=
  (⟨(sha256.sum x).h0 % 2 ^ 32, Nat.mod_lt _ (by norm_num)⟩,
   ⟨(sha256.sum x).h1 % 2 ^ 32, Nat.mod_lt _ (by norm_num)⟩,
   ⟨(sha256.sum x).h2 % 2 ^ 32, Nat.mod_lt _ (by norm_num)⟩,
   ⟨(sha256.sum x).h3 % 2 ^ 32, Nat.mod_lt _ (by norm_num)⟩,
   ⟨(sha256.sum x).h4 % 2 ^ 32, Nat.mod_lt _ (by norm_num)⟩,
   ⟨(sha256.sum x).h5 % 2 ^ 32, Nat.mod_lt _ (by norm_num)⟩,
   ⟨(sha256.sum x).h6 % 2 ^ 32, Nat.mod_lt _ (by norm_num)⟩,
   ⟨(sha256.sum x).h7 % 2 ^ 32, Nat.mod_lt _ (by norm_num)⟩)

/-- The branch name made of `n` letters `a`. -/
def branchOfLength (n : Nat) : String := String.mk (List.replicate n 'a')

end keys

/-! # Theorems -/

namespace storage

/-! ## Lemmas on the loop -/

section loop

variable {σ ε : Type} (api : StorageAPI σ ε)
  (ex : String → Option String) (filter : List (String → Bool))

theorem eventOf_entry (p : String × bucket) (err : Option ε) :
    (eventOf ex p err).entry = p.1 := by
  unfold eventOf; split <;> rfl

theorem eventOf_err (p : String × bucket) (err : Option ε) :
    (eventOf ex p err).err = err := by
  unfold eventOf; split <;> rfl

/-- A run of the loop that returns `nil` issued one successful call per desired entry, in
order. -/
theorem upsertLoop_ok (l : List (String × bucket)) (s : σ)
    (h : (upsertLoop api ex filter l s).err = none) :
    (upsertLoop api ex filter l s).calls = l.map (fun p => eventOf ex p none) := by
  induction l generalizing s with
  | nil => simp [upsertLoop]
  | cons p rest ih =>
    obtain ⟨name, b⟩ := p
    unfold upsertLoop at h ⊢
    cases hex : ex name with
    | some bucketId =>
      simp only [hex] at h ⊢
      rcases hcall : api.UpdateBucket ⟨bucketId, propsOf b⟩ s with ⟨_ | e, s1⟩
      · simp only [hcall] at h ⊢
        simp [ih s1 h, eventOf, hex]
      · simp [hcall] at h
    | none =>
      simp only [hex] at h ⊢
      rcases hcall : api.CreateBucket ⟨name, propsOf b⟩ s with ⟨_ | e, s1⟩
      · simp only [hcall] at h ⊢
        simp [ih s1 h, eventOf, hex]
      · simp [hcall] at h

/-- A run of the loop that returns the error `e` stopped at some desired entry: the entries
before it got one successful call each, its own call returned `e`, and nothing follows. -/
theorem upsertLoop_err (l : List (String × bucket)) (s : σ) (e : ε)
    (h : (upsertLoop api ex filter l s).err = some e) :
    ∃ pre p post, l = pre ++ p :: post ∧
      (upsertLoop api ex filter l s).calls
        = pre.map (fun q => eventOf ex q none) ++ [eventOf ex p (some e)] := by
  induction l generalizing s with
  | nil => simp [upsertLoop] at h
  | cons p rest ih =>
    obtain ⟨name, b⟩ := p
    unfold upsertLoop at h ⊢
    cases hex : ex name with
    | some bucketId =>
      simp only [hex] at h ⊢
      rcases hcall : api.UpdateBucket ⟨bucketId, propsOf b⟩ s with ⟨_ | e1, s1⟩
      · simp only [hcall] at h ⊢
        obtain ⟨pre, q, post, hl, hc⟩ := ih s1 h
        exact ⟨(name, b) :: pre, q, post, by simp [hl], by simp [hc, eventOf, hex]⟩
      · simp only [hcall] at h ⊢
        simp only [Option.some.injEq] at h
        exact ⟨[], (name, b), rest, by simp, by simp [eventOf, hex, h]⟩
    | none =>
      simp only [hex] at h ⊢
      rcases hcall : api.CreateBucket ⟨name, propsOf b⟩ s with ⟨_ | e1, s1⟩
      · simp only [hcall] at h ⊢
        obtain ⟨pre, q, post, hl, hc⟩ := ih s1 h
        exact ⟨(name, b) :: pre, q, post, by simp [hl], by simp [hc, eventOf, hex]⟩
      · simp only [hcall] at h ⊢
        simp only [Option.some.injEq] at h
        exact ⟨[], (name, b), rest, by simp, by simp [eventOf, hex, h]⟩

/-- The remote state after the loop is the start state with the issued calls applied in
order: nothing is undone and nothing else is issued. -/
theorem upsertLoop_remote (l : List (String × bucket)) (s : σ) :
    (upsertLoop api ex filter l s).remote
      = ((upsertLoop api ex filter l s).calls.map (fun ev => ev.call)).foldl api.apply s := by
  induction l generalizing s with
  | nil => simp [upsertLoop]
  | cons p rest ih =>
    obtain ⟨name, b⟩ := p
    unfold upsertLoop
    cases hex : ex name with
    | some bucketId =>
      simp only [hex]
      rcases hcall : api.UpdateBucket ⟨bucketId, propsOf b⟩ s with ⟨_ | e1, s1⟩
      · simp [ih s1, StorageAPI.apply, hcall]
      · simp [StorageAPI.apply, hcall]
    | none =>
      simp only [hex]
      rcases hcall : api.CreateBucket ⟨name, propsOf b⟩ s with ⟨_ | e1, s1⟩
      · simp [ih s1, StorageAPI.apply, hcall]
      · simp [StorageAPI.apply, hcall]

/-- Every run of the loop has one of two shapes: it returned `nil` after one successful
call per entry, or it returned the error of the call of some entry, after one successful
call for each entry before it. -/
theorem upsertLoop_shape (l : List (String × bucket)) (s : σ) :
    ((upsertLoop api ex filter l s).err = none ∧
      (upsertLoop api ex filter l s).calls = l.map (fun p => eventOf ex p none)) ∨
    (∃ e pre p post, (upsertLoop api ex filter l s).err = some e ∧ l = pre ++ p :: post ∧
      (upsertLoop api ex filter l s).calls
        = pre.map (fun q => eventOf ex q none) ++ [eventOf ex p (some e)]) := by
  cases h : (upsertLoop api ex filter l s).err with
  | none => exact Or.inl ⟨rfl, upsertLoop_ok api ex filter l s h⟩
  | some e =>
    obtain ⟨pre, p, post, hl, hc⟩ := upsertLoop_err api ex filter l s e h
    exact Or.inr ⟨e, pre, p, post, rfl, hl, hc⟩

/-- The filter predicates have no influence on the loop. -/
theorem upsertLoop_filter (l : List (String × bucket)) (s : σ) :
    upsertLoop api ex filter l s = upsertLoop api ex [] l s := by
  induction l generalizing s with
  | nil => simp [upsertLoop]
  | cons p rest ih =>
    obtain ⟨name, b⟩ := p
    unfold upsertLoop
    cases hex : ex name with
    | some bucketId =>
      simp only
      rcases hcall : api.UpdateBucket ⟨bucketId, propsOf b⟩ s with ⟨_ | e1, s1⟩
      · simp only [ih s1]
      · rfl
    | none =>
      simp only
      rcases hcall : api.CreateBucket ⟨name, propsOf b⟩ s with ⟨_ | e1, s1⟩
      · simp only [ih s1]
      · rfl

end loop

/-! ## Lemmas on the index of remote names -/

theorem existsMap_append (bs : List BucketResponse) (b : BucketResponse) (name : String) :
    existsMap (bs ++ [b]) name = if name = b.Name then some b.Id else existsMap bs name := by
  simp [existsMap, List.foldl_append]

theorem existsMap_nil (name : String) : existsMap [] name = none := rfl

/-- A name is missing from the index exactly when no listed bucket carries it. -/
theorem existsMap_eq_none (bs : List BucketResponse) (name : String) :
    existsMap bs name = none ↔ ∀ b ∈ bs, b.Name ≠ name := by
  induction bs using List.reverseRecOn with
  | nil => simp [existsMap_nil]
  | append_singleton bs b ih =>
    rw [existsMap_append]
    by_cases hn : name = b.Name
    · simp only [hn, if_true]
      constructor
      · intro h; cases h
      · intro h; exact absurd rfl (h b (by simp))
    · simp only [hn, if_false, ih]
      constructor
      · intro h c hc
        rcases List.mem_append.1 hc with hc | hc
        · exact h c hc
        · simp only [List.mem_singleton] at hc
          subst hc
          exact fun h1 => hn h1.symm
      · intro h c hc
        exact h c (List.mem_append_left _ hc)

/-- An indexed identifier is the identifier of a listed bucket of that name. -/
theorem existsMap_eq_some (bs : List BucketResponse) (name id : String)
    (h : existsMap bs name = some id) : ∃ b ∈ bs, b.Name = name ∧ b.Id = id := by
  induction bs using List.reverseRecOn with
  | nil => simp [existsMap_nil] at h
  | append_singleton bs b ih =>
    rw [existsMap_append] at h
    by_cases hn : name = b.Name
    · simp only [hn, if_true, Option.some.injEq] at h
      exact ⟨b, by simp, hn.symm, h⟩
    · simp only [hn, if_false] at h
      obtain ⟨c, hc, h1, h2⟩ := ih h
      exact ⟨c, List.mem_append_left _ hc, h1, h2⟩

/-- The index holds, for a name, the identifier of the last listed bucket of that name. -/
theorem existsMap_last (pre post : List BucketResponse) (rb : BucketResponse)
    (hpost : ∀ b ∈ post, b.Name ≠ rb.Name) :
    existsMap (pre ++ rb :: post) rb.Name = some rb.Id := by
  induction post using List.reverseRecOn with
  | nil => rw [existsMap_append]; simp
  | append_singleton post b ih =>
    have hb : rb.Name ≠ b.Name := fun h => hpost b (by simp) h.symm
    have : pre ++ rb :: (post ++ [b]) = (pre ++ rb :: post) ++ [b] := by simp
    rw [this, existsMap_append, if_neg hb]
    exact ih (fun c hc => hpost c (List.mem_append_left _ hc))

/-- When the listing succeeds, `UpsertBuckets` is the loop run with the index of the listing. -/
theorem UpsertBuckets_listed {σ ε : Type} (api : StorageAPI σ ε)
    (desired : List (String × bucket)) (filter : List (String → Bool)) (s : σ)
    (buckets : List BucketResponse) (h : (api.ListBuckets s).1 = Except.ok buckets) :
    UpsertBuckets api desired filter s
      = upsertLoop api (existsMap buckets) filter desired (api.ListBuckets s).2 := by
  unfold UpsertBuckets
  rcases hl : api.ListBuckets s with ⟨r, s1⟩
  rw [hl] at h
  simp only at h
  subst h
  rfl

/-- The filter predicates have no influence on `UpsertBuckets`. -/
theorem UpsertBuckets_filter {σ ε : Type} (api : StorageAPI σ ε)
    (desired : List (String × bucket)) (filter : List (String → Bool)) (s : σ) :
    UpsertBuckets api desired filter s = UpsertBuckets api desired [] s := by
  unfold UpsertBuckets
  rcases api.ListBuckets s with ⟨_ | buckets, s1⟩
  · rfl
  · exact upsertLoop_filter api (existsMap buckets) filter desired s1

/-- When the listing fails, `UpsertBuckets` returns its error and issues no call. -/
theorem UpsertBuckets_list_failed {σ ε : Type} (api : StorageAPI σ ε)
    (desired : List (String × bucket)) (filter : List (String → Bool)) (s : σ)
    (e : ε) (h : (api.ListBuckets s).1 = Except.error e) :
    (UpsertBuckets api desired filter s).calls = [] ∧
    (UpsertBuckets api desired filter s).err = some e := by
  unfold UpsertBuckets
  rcases hl : api.ListBuckets s with ⟨r, s1⟩
  rw [hl] at h
  simp only at h
  subst h
  exact ⟨rfl, rfl⟩

/-- Among the records of one successful call per entry of a map, those of the key `name`
are the single record of its entry. -/
theorem filter_entry_map {ε : Type} (ex : String → Option String)
    (l : List (String × bucket)) (hnodup : (l.map Prod.fst).Nodup)
    (name : String) (b : bucket) (hmem : (name, b) ∈ l) :
    (l.map (fun p => (eventOf ex p none : Event ε))).filter (fun ev => ev.entry = name)
      = [eventOf ex (name, b) none] := by
  induction l with
  | nil => simp at hmem
  | cons p rest ih =>
    simp only [List.map_cons, List.nodup_cons] at hnodup
    rcases List.mem_cons.1 hmem with h | h
    · subst h
      have hrest : (rest.map (fun p => (eventOf ex p none : Event ε))).filter
          (fun ev => ev.entry = name) = [] := by
        rw [List.filter_eq_nil_iff]
        intro ev hev
        obtain ⟨q, hq, rfl⟩ := List.mem_map.1 hev
        simp only [eventOf_entry, decide_eq_true_eq]
        intro hq1
        exact hnodup.1 (List.mem_map.2 ⟨q, hq, hq1⟩)
      simp [List.filter_cons, eventOf_entry, hrest]
    · have hne : p.1 ≠ name := by
        intro hp
        apply hnodup.1
        rw [hp]
        exact List.mem_map.2 ⟨(name, b), h, rfl⟩
      simp [List.filter_cons, eventOf_entry, hne, ih hnodup.2 h]

/-- Every record of the trace is the record of a desired entry. -/
theorem UpsertBuckets_calls_mem {σ ε : Type} (api : StorageAPI σ ε)
    (desired : List (String × bucket)) (filter : List (String → Bool)) (s : σ)
    (buckets : List BucketResponse) (h : (api.ListBuckets s).1 = Except.ok buckets) :
    ∀ c ∈ (UpsertBuckets api desired filter s).calls,
      ∃ p ∈ desired, ∃ err, c = eventOf (existsMap buckets) p err := by
  intro c hc
  rw [UpsertBuckets_listed api desired filter s buckets h] at hc
  rcases upsertLoop_shape api (existsMap buckets) filter desired (api.ListBuckets s).2
    with ⟨_, hcs⟩ | ⟨e1, pre, p, post, _, hd, hcs⟩
  · rw [hcs] at hc
    obtain ⟨q, hq, rfl⟩ := List.mem_map.1 hc
    exact ⟨q, hq, none, rfl⟩
  · rw [hcs] at hc
    rcases List.mem_append.1 hc with h1 | h1
    · obtain ⟨q, hq, rfl⟩ := List.mem_map.1 h1
      exact ⟨q, by rw [hd]; exact List.mem_append_left _ hq, none, rfl⟩
    · simp only [List.mem_singleton] at h1
      exact ⟨p, by rw [hd]; simp, some e1, h1⟩

/-! ## Claims on `UpsertBuckets` -/

/-- C1 (evaluation at the failing input): with desired `{b1: {public: true}}`, remote
listing `[{name: "b1", id: "X"}]` and one filter predicate that returns false for `"X"`,
`UpsertBuckets` still issues the `UpdateBucket` call for `"X"`: the `continue` of the
predicate loop does not skip the update. -/
theorem C1_filter_false_still_updates :
    (UpsertBuckets (countingAPI [⟨"b1", "X", false, none, []⟩] 0)
        [("b1", ⟨true, 0, []⟩)] [fun _ => false] 0).calls
      = [⟨"b1", Call.UpdateBucket ⟨"X", ⟨true, 0, []⟩⟩, none⟩] := by
  decide

/-- C2: if the `k`-th mutation call issued by `UpsertBuckets` fails with error `e`, then
`UpsertBuckets` returns exactly `e`, exactly `k` calls were issued, the `k - 1` earlier ones
succeeded and stay applied (the final remote state is the listed state with the `k` calls
applied in order), the calls are those of the first `k` desired entries in processing order,
and no call is issued for a desired bucket that comes after the failing one. -/
theorem C2_fail_fast {σ ε : Type} (api : StorageAPI σ ε)
    (desired : List (String × bucket)) (filter : List (String → Bool)) (s : σ)
    (k : Nat) (ev : Event ε) (e : ε) (hk : 0 < k)
    (hev : (UpsertBuckets api desired filter s).calls[k - 1]? = some ev)
    (hfail : ev.err = some e) :
    (UpsertBuckets api desired filter s).err = some e ∧
    (UpsertBuckets api desired filter s).calls.length = k ∧
    (∀ j, j < k - 1 → ∃ ev1, (UpsertBuckets api desired filter s).calls[j]? = some ev1 ∧
      ev1.err = none) ∧
    (UpsertBuckets api desired filter s).calls.map (fun c => c.entry)
      = (desired.take k).map Prod.fst ∧
    (UpsertBuckets api desired filter s).remote
      = ((UpsertBuckets api desired filter s).calls.map (fun c => c.call)).foldl
          api.apply (api.ListBuckets s).2 ∧
    ((desired.map Prod.fst).Nodup → ∀ p ∈ desired.drop k,
      ∀ c ∈ (UpsertBuckets api desired filter s).calls, c.entry ≠ p.1) := by
  rcases hl : (api.ListBuckets s).1 with e0 | buckets
  · rw [(UpsertBuckets_list_failed api desired filter s e0 hl).1] at hev
    simp at hev
  · rw [UpsertBuckets_listed api desired filter s buckets hl] at hev ⊢
    have hrem := upsertLoop_remote api (existsMap buckets) filter desired
      (api.ListBuckets s).2
    rcases upsertLoop_shape api (existsMap buckets) filter desired (api.ListBuckets s).2
      with ⟨_, hc⟩ | ⟨e1, pre, p, post, herr, hd, hc⟩
    · rw [hc] at hev
      obtain ⟨q, _, rfl⟩ := List.mem_map.1 (List.getElem?_mem hev)
      rw [eventOf_err] at hfail
      cases hfail
    · rw [hc] at hev
      have hlen : k - 1 = pre.length := by
        rcases Nat.lt_trichotomy (k - 1) pre.length with h | h | h
        · rw [List.getElem?_append_left (by simpa using h)] at hev
          obtain ⟨q, _, rfl⟩ := List.mem_map.1 (List.getElem?_mem hev)
          rw [eventOf_err] at hfail
          cases hfail
        · exact h
        · rw [List.getElem?_eq_none (by simp; omega)] at hev
          cases hev
      have hk1 : k = pre.length + 1 := by omega
      rw [hlen, List.getElem?_append_right (by simp)] at hev
      simp only [List.length_map, Nat.sub_self, List.getElem?_cons_zero,
        Option.some.injEq] at hev
      subst hev
      rw [eventOf_err] at hfail
      cases hfail
      have htake : desired.take k = pre ++ [p] := by
        rw [hd, hk1]
        have : pre ++ p :: post = (pre ++ [p]) ++ post := by simp
        rw [this, List.take_left' (by simp)]
      have hdrop : desired.drop k = post := by
        rw [hd, hk1]
        have : pre ++ p :: post = (pre ++ [p]) ++ post := by simp
        rw [this, List.drop_left' (by simp)]
      refine ⟨herr, ?_, ?_, ?_, hrem, ?_⟩
      · rw [hc]; simp [hk1]
      · intro j hj
        rw [hc, List.getElem?_append_left (by simp; omega)]
        have hj1 : j < pre.length := by omega
        refine ⟨eventOf (existsMap buckets) pre[j] none, ?_, eventOf_err _ _ _⟩
        simp [List.getElem?_map, List.getElem?_eq_getElem hj1]
      · rw [hc, htake]
        simp [eventOf_entry, Function.comp_def]
      · intro hnodup q hq c hcmem hcq
        rw [hdrop] at hq
        rw [hc] at hcmem
        have hcin : c.entry ∈ (pre ++ [p]).map Prod.fst := by
          rcases List.mem_append.1 hcmem with h | h
          · obtain ⟨q1, hq1, rfl⟩ := List.mem_map.1 h
            rw [eventOf_entry]
            exact List.mem_map.2 ⟨q1, List.mem_append_left _ hq1, rfl⟩
          · simp only [List.mem_singleton] at h
            subst h
            rw [eventOf_entry]
            exact List.mem_map.2 ⟨p, by simp, rfl⟩
        have hsplit : desired.map Prod.fst = (pre ++ [p]).map Prod.fst ++ post.map Prod.fst := by
          rw [hd]; simp
        rw [hsplit] at hnodup
        exact (List.nodup_append.1 hnodup).2.2 hcin (List.mem_map.2 ⟨q, hq, hcq.symm⟩)

/-- C2 (witness): three desired buckets against an empty listing, the second call failing:
one successful create, one failed create, no call for the third bucket. -/
theorem C2_fail_fast_witness :
    (UpsertBuckets (countingAPI [] 2)
        [("a", ⟨false, 0, []⟩), ("b", ⟨false, 0, []⟩), ("c", ⟨false, 0, []⟩)] [] 0).err
      = some "transport error" ∧
    (UpsertBuckets (countingAPI [] 2)
        [("a", ⟨false, 0, []⟩), ("b", ⟨false, 0, []⟩), ("c", ⟨false, 0, []⟩)] [] 0).calls.length
      = 2 ∧
    (UpsertBuckets (countingAPI [] 2)
        [("a", ⟨false, 0, []⟩), ("b", ⟨false, 0, []⟩), ("c", ⟨false, 0, []⟩)] [] 0).calls.map
        (fun c => c.entry)
      = ["a", "b"] :=
  have h := C2_fail_fast (countingAPI [] 2)
        [("a", ⟨false, 0, []⟩), ("b", ⟨false, 0, []⟩), ("c", ⟨false, 0, []⟩)] [] 0 2
    ⟨"b", Call.CreateBucket ⟨"b", ⟨false, 0, []⟩⟩, some "transport error"⟩ "transport error"
    (by decide) (by decide) rfl
  ⟨h.1, h.2.1, h.2.2.2.1⟩

/-- The conversion `int(·)` keeps a size below `2 ^ 63`. -/
theorem int_of_lt (x : Nat) (h : x < 2 ^ 63) : int x = (x : Int) := by
  have h1 : x % 2 ^ 64 = x := Nat.mod_eq_of_lt (by omega)
  unfold int
  rw [h1, if_pos h]

/-- C3 (counterexample): desired `{b1: {public: false, file size limit 2^63}}` against an
empty remote listing, no call failing: the `CreateBucket` call carries the file size limit
`-2^63`, which is not the limit of the desired entry. -/
theorem C3_counterexample :
    (UpsertBuckets (countingAPI [] 0) [("b1", ⟨false, 9223372036854775808, []⟩)] [] 0).err
      = none ∧
    (UpsertBuckets (countingAPI [] 0) [("b1", ⟨false, 9223372036854775808, []⟩)] [] 0).calls
      = [⟨"b1", Call.CreateBucket ⟨"b1", ⟨false, -9223372036854775808, []⟩⟩, none⟩] ∧
    (-9223372036854775808 : Int) ≠ ((9223372036854775808 : Nat) : Int) := by
  decide

/-- C3 (amended): in a run in which no call fails, a desired bucket whose name is not the
name of any listed remote bucket and whose file size limit is below `2 ^ 63` gets exactly
one call, a `CreateBucket` carrying its name and a property set whose public flag, file
size limit and allowed MIME types equal those of the desired entry, hence no
`UpdateBucket`; and this is the only `CreateBucket` call of the run that carries the
name. -/
theorem C3_create_missing {σ ε : Type} (api : StorageAPI σ ε)
    (desired : List (String × bucket)) (filter : List (String → Bool)) (s : σ)
    (buckets : List BucketResponse) (name : String) (b : bucket)
    (hlist : (api.ListBuckets s).1 = Except.ok buckets)
    (hnodup : (desired.map Prod.fst).Nodup)
    (hok : (UpsertBuckets api desired filter s).err = none)
    (hmem : (name, b) ∈ desired)
    (habsent : ∀ rb ∈ buckets, rb.Name ≠ name)
    (hlimit : b.FileSizeLimit < 2 ^ 63) :
    (UpsertBuckets api desired filter s).calls.filter (fun c => c.entry = name)
      = [⟨name, Call.CreateBucket
          ⟨name, ⟨b.Public, (b.FileSizeLimit : Int), b.AllowedMimeTypes⟩⟩, none⟩] ∧
    (UpsertBuckets api desired filter s).calls.filter (fun c => c.call.createsName name)
      = [⟨name, Call.CreateBucket
          ⟨name, ⟨b.Public, (b.FileSizeLimit : Int), b.AllowedMimeTypes⟩⟩, none⟩] := by
  have hex : existsMap buckets name = none := (existsMap_eq_none buckets name).2 habsent
  rw [UpsertBuckets_listed api desired filter s buckets hlist] at hok ⊢
  rw [upsertLoop_ok api (existsMap buckets) filter desired _ hok]
  have hone := filter_entry_map (ε := ε) (existsMap buckets) desired hnodup name b hmem
  have hev : (eventOf (existsMap buckets) (name, b) none : Event ε)
      = ⟨name, Call.CreateBucket
          ⟨name, ⟨b.Public, (b.FileSizeLimit : Int), b.AllowedMimeTypes⟩⟩, none⟩ := by
    simp [eventOf, hex, propsOf, int_of_lt b.FileSizeLimit hlimit]
  rw [hev] at hone
  refine ⟨hone, ?_⟩
  rw [← hone]
  apply List.filter_congr
  intro c hc
  obtain ⟨q, _, rfl⟩ := List.mem_map.1 hc
  unfold eventOf
  cases hq : existsMap buckets q.1 with
  | none => simp [Call.createsName]
  | some id =>
    have hne : q.1 ≠ name := by
      intro h
      rw [h, hex] at hq
      cases hq
    simp [Call.createsName, hne]

/-- C3 (witness): desired `{b1: {public: false, file size limit 5242880}}` against an empty
remote listing issues exactly one create for `b1`, with the limit 5242880. -/
theorem C3_create_missing_witness :
    (UpsertBuckets (countingAPI [] 0) [("b1", ⟨false, 5242880, ["image/png"]⟩)] [] 0).calls.filter
        (fun c => c.entry = "b1")
      = [⟨"b1", Call.CreateBucket ⟨"b1", ⟨false, 5242880, ["image/png"]⟩⟩, none⟩] ∧
    (UpsertBuckets (countingAPI [] 0) [("b1", ⟨false, 5242880, ["image/png"]⟩)] [] 0).calls.filter
        (fun c => c.call.createsName "b1")
      = [⟨"b1", Call.CreateBucket ⟨"b1", ⟨false, 5242880, ["image/png"]⟩⟩, none⟩] :=
  C3_create_missing (countingAPI [] 0) [("b1", ⟨false, 5242880, ["image/png"]⟩)] [] 0 [] "b1"
    ⟨false, 5242880, ["image/png"]⟩ rfl (by decide) (by decide) (by decide) (by simp)
    (by decide)

/-- C4 (counterexample): first, the listing holds two buckets named `b1`, with identifiers
`"X"` and then `"Y"`: the desired bucket `b1` has the name of a remote bucket with
identifier `"X"`, there is no filter and no call fails, yet the single update targets `"Y"`
and no call targets `"X"`. Second, with the single remote bucket `b1` of identifier `"X"`
and the desired file size limit `2^63`, the update carries the limit `-2^63`. -/
theorem C4_counterexample :
    ((⟨"b1", "X", false, none, []⟩ : BucketResponse)
      ∈ [(⟨"b1", "X", false, none, []⟩ : BucketResponse), ⟨"b1", "Y", false, none, []⟩] ∧
    (UpsertBuckets (countingAPI [⟨"b1", "X", false, none, []⟩, ⟨"b1", "Y", false, none, []⟩] 0)
        [("b1", ⟨true, 0, []⟩)] [] 0).err = none ∧
    (UpsertBuckets (countingAPI [⟨"b1", "X", false, none, []⟩, ⟨"b1", "Y", false, none, []⟩] 0)
        [("b1", ⟨true, 0, []⟩)] [] 0).calls
      = [⟨"b1", Call.UpdateBucket ⟨"Y", ⟨true, 0, []⟩⟩, none⟩] ∧
    (UpsertBuckets (countingAPI [⟨"b1", "X", false, none, []⟩, ⟨"b1", "Y", false, none, []⟩] 0)
        [("b1", ⟨true, 0, []⟩)] [] 0).calls.filter (fun c => c.call.updatesId "X")
      = []) ∧
    ((UpsertBuckets (countingAPI [⟨"b1", "X", false, none, []⟩] 0)
        [("b1", ⟨true, 9223372036854775808, []⟩)] [] 0).err = none ∧
    (UpsertBuckets (countingAPI [⟨"b1", "X", false, none, []⟩] 0)
        [("b1", ⟨true, 9223372036854775808, []⟩)] [] 0).calls
      = [⟨"b1", Call.UpdateBucket ⟨"X", ⟨true, -9223372036854775808, []⟩⟩, none⟩] ∧
    (-9223372036854775808 : Int) ≠ ((9223372036854775808 : Nat) : Int)) := by
  decide

/-- C4 (amended): in a run in which no call fails, a desired bucket whose file size limit
is below `2 ^ 63` and whose name is the name of a listed remote bucket gets exactly one
call, an `UpdateBucket` targeting the identifier `X` of the last listed bucket of that name
(the only one when remote names are unique) and carrying the property set of the desired
entry (public flag, file size limit, allowed MIME types), nothing of the remote bucket; no
`CreateBucket` call of the run carries the name. This holds when every predicate returns
true for `X`, in particular for the empty filter sequence. -/
theorem C4_update_existing {σ ε : Type} (api : StorageAPI σ ε)
    (desired : List (String × bucket)) (filter : List (String → Bool)) (s : σ)
    (pre post : List BucketResponse) (rb : BucketResponse) (b : bucket)
    (hlist : (api.ListBuckets s).1 = Except.ok (pre ++ rb :: post))
    (hlast : ∀ rb1 ∈ post, rb1.Name ≠ rb.Name)
    (hnodup : (desired.map Prod.fst).Nodup)
    (hok : (UpsertBuckets api desired filter s).err = none)
    (hmem : (rb.Name, b) ∈ desired)
    (_hfilter : ∀ keep ∈ filter, keep rb.Id = true)
    (hlimit : b.FileSizeLimit < 2 ^ 63) :
    (UpsertBuckets api desired filter s).calls.filter (fun c => c.entry = rb.Name)
      = [⟨rb.Name, Call.UpdateBucket
          ⟨rb.Id, ⟨b.Public, (b.FileSizeLimit : Int), b.AllowedMimeTypes⟩⟩, none⟩] ∧
    (UpsertBuckets api desired filter s).calls.filter
        (fun c => c.call.createsName rb.Name) = [] := by
  have hex : existsMap (pre ++ rb :: post) rb.Name = some rb.Id := existsMap_last pre post rb hlast
  rw [UpsertBuckets_listed api desired filter s _ hlist] at hok ⊢
  rw [upsertLoop_ok api (existsMap (pre ++ rb :: post)) filter desired _ hok]
  have hone := filter_entry_map (ε := ε) (existsMap (pre ++ rb :: post)) desired hnodup
    rb.Name b hmem
  have hev : (eventOf (existsMap (pre ++ rb :: post)) (rb.Name, b) none : Event ε)
      = ⟨rb.Name, Call.UpdateBucket
          ⟨rb.Id, ⟨b.Public, (b.FileSizeLimit : Int), b.AllowedMimeTypes⟩⟩, none⟩ := by
    simp [eventOf, hex, propsOf, int_of_lt b.FileSizeLimit hlimit]
  rw [hev] at hone
  refine ⟨hone, ?_⟩
  rw [List.filter_eq_nil_iff]
  intro c hc
  obtain ⟨q, _, rfl⟩ := List.mem_map.1 hc
  unfold eventOf
  cases hq : existsMap (pre ++ rb :: post) q.1 with
  | none =>
    have hne : q.1 ≠ rb.Name := by
      intro h
      rw [h, hex] at hq
      cases hq
    simp [Call.createsName, hne]
  | some id => simp [Call.createsName]

/-- C4 (witness): desired `{b1: {public: true, file size limit 5242880}}` against remote
`[{name: "b1", id: "X", public: false, file size limit 1}]` with no filters issues exactly
one update, targeting `"X"` with `public = true` and the limit 5242880. -/
theorem C4_update_existing_witness :
    (UpsertBuckets (countingAPI [⟨"b1", "X", false, some 1, ["text/plain"]⟩] 0)
        [("b1", ⟨true, 5242880, ["image/png"]⟩)] [] 0).calls.filter (fun c => c.entry = "b1")
      = [⟨"b1", Call.UpdateBucket ⟨"X", ⟨true, 5242880, ["image/png"]⟩⟩, none⟩] ∧
    (UpsertBuckets (countingAPI [⟨"b1", "X", false, some 1, ["text/plain"]⟩] 0)
        [("b1", ⟨true, 5242880, ["image/png"]⟩)] [] 0).calls.filter
        (fun c => c.call.createsName "b1") = [] :=
  C4_update_existing (countingAPI [⟨"b1", "X", false, some 1, ["text/plain"]⟩] 0)
    [("b1", ⟨true, 5242880, ["image/png"]⟩)] [] 0 [] []
    ⟨"b1", "X", false, some 1, ["text/plain"]⟩ ⟨true, 5242880, ["image/png"]⟩
    rfl (by simp) (by decide) (by decide) (by decide) (by simp) (by decide)

/-- C5: every mutation call issued by `UpsertBuckets` is either a `CreateBucket` whose name
is a key of the desired configuration or an `UpdateBucket` whose identifier is that of a
listed remote bucket whose name is a key of the desired configuration (calls are of these
two kinds only, there is no delete). Hence, identifiers identifying the listed buckets
(two listed buckets with the same identifier have the same name), no call targets a remote
bucket whose name is absent from the desired configuration: no `CreateBucket` carries its
name and no `UpdateBucket` its identifier. For a single such bucket it is enough that no
listed bucket named in the desired configuration has its identifier. When the listing
itself fails, no call is issued. -/
theorem C5_only_desired {σ ε : Type} (api : StorageAPI σ ε)
    (desired : List (String × bucket)) (filter : List (String → Bool)) (s : σ) :
    (∀ e, (api.ListBuckets s).1 = Except.error e →
      (UpsertBuckets api desired filter s).calls = []) ∧
    (∀ buckets, (api.ListBuckets s).1 = Except.ok buckets →
      (∀ c ∈ (UpsertBuckets api desired filter s).calls,
        (∃ body, c.call = Call.CreateBucket body ∧ body.Name ∈ desired.map Prod.fst) ∨
        (∃ body, c.call = Call.UpdateBucket body ∧
          ∃ rb ∈ buckets, rb.Id = body.Id ∧ rb.Name ∈ desired.map Prod.fst)) ∧
      ((∀ rb1 ∈ buckets, ∀ rb2 ∈ buckets, rb1.Id = rb2.Id → rb1.Name = rb2.Name) →
        ∀ rb ∈ buckets, rb.Name ∉ desired.map Prod.fst →
          ∀ c ∈ (UpsertBuckets api desired filter s).calls,
            c.call.createsName rb.Name = false ∧ c.call.updatesId rb.Id = false) ∧
      (∀ rb ∈ buckets, rb.Name ∉ desired.map Prod.fst →
        (∀ c ∈ (UpsertBuckets api desired filter s).calls,
          c.call.createsName rb.Name = false) ∧
        ((∀ rb1 ∈ buckets, rb1.Id = rb.Id → rb1.Name ∉ desired.map Prod.fst) →
          ∀ c ∈ (UpsertBuckets api desired filter s).calls,
            c.call.updatesId rb.Id = false))) := by
  refine ⟨fun e he => (UpsertBuckets_list_failed api desired filter s e he).1, ?_⟩
  intro buckets hl
  have hkinds : ∀ c ∈ (UpsertBuckets api desired filter s).calls,
      (∃ body, c.call = Call.CreateBucket body ∧ body.Name ∈ desired.map Prod.fst) ∨
      (∃ body, c.call = Call.UpdateBucket body ∧
        ∃ rb ∈ buckets, rb.Id = body.Id ∧ rb.Name ∈ desired.map Prod.fst) := by
    intro c hc
    obtain ⟨q, hq, err, rfl⟩ := UpsertBuckets_calls_mem api desired filter s buckets hl c hc
    have hkey : q.1 ∈ desired.map Prod.fst := List.mem_map.2 ⟨q, hq, rfl⟩
    unfold eventOf
    cases hex : existsMap buckets q.1 with
    | none => exact Or.inl ⟨_, rfl, hkey⟩
    | some id =>
      obtain ⟨rb, hrb, hname, hid⟩ := existsMap_eq_some buckets q.1 id hex
      exact Or.inr ⟨_, rfl, rb, hrb, hid, by rw [hname]; exact hkey⟩
  have hcreate : ∀ rb ∈ buckets, rb.Name ∉ desired.map Prod.fst →
      ∀ c ∈ (UpsertBuckets api desired filter s).calls, c.call.createsName rb.Name = false := by
    intro rb _ habsent c hc
    rcases hkinds c hc with ⟨body, hb, hname⟩ | ⟨body, hb, _⟩
    · rw [hb]
      simp only [Call.createsName, decide_eq_false_iff_not]
      intro h
      exact habsent (h ▸ hname)
    · rw [hb]; rfl
  have hupdate : ∀ rb ∈ buckets, rb.Name ∉ desired.map Prod.fst →
      (∀ rb1 ∈ buckets, rb1.Id = rb.Id → rb1.Name ∉ desired.map Prod.fst) →
      ∀ c ∈ (UpsertBuckets api desired filter s).calls, c.call.updatesId rb.Id = false := by
    intro rb _ _ hid c hc
    rcases hkinds c hc with ⟨body, hb, _⟩ | ⟨body, hb, rb1, hrb1, hid1, hname1⟩
    · rw [hb]; rfl
    · rw [hb]
      simp only [Call.updatesId, decide_eq_false_iff_not]
      intro h
      exact hid rb1 hrb1 (hid1.trans h) hname1
  refine ⟨hkinds, ?_, ?_⟩
  · intro hident rb hrb habsent c hc
    refine ⟨hcreate rb hrb habsent c hc, hupdate rb hrb habsent ?_ c hc⟩
    intro rb1 hrb1 hid1
    rw [hident rb1 hrb1 rb hrb hid1]
    exact habsent
  · intro rb hrb habsent
    exact ⟨hcreate rb hrb habsent, hupdate rb hrb habsent⟩

/-- C5 (witness): the listing holds `b1` (identifier `"X"`) and `b2` (identifier `"Y"`),
only `b1` is desired: the single call is the update of `"X"`, and no call carries the name
or the identifier of `b2`. -/
theorem C5_only_desired_witness :
    (UpsertBuckets (countingAPI [⟨"b1", "X", false, none, []⟩, ⟨"b2", "Y", false, none, []⟩] 0)
        [("b1", ⟨true, 0, []⟩)] [] 0).calls
      = [⟨"b1", Call.UpdateBucket ⟨"X", ⟨true, 0, []⟩⟩, none⟩] ∧
    ∀ c ∈ (UpsertBuckets
        (countingAPI [⟨"b1", "X", false, none, []⟩, ⟨"b2", "Y", false, none, []⟩] 0)
        [("b1", ⟨true, 0, []⟩)] [] 0).calls,
      c.call.createsName "b2" = false ∧ c.call.updatesId "Y" = false :=
  ⟨by decide,
    ((C5_only_desired
        (countingAPI [⟨"b1", "X", false, none, []⟩, ⟨"b2", "Y", false, none, []⟩] 0)
        [("b1", ⟨true, 0, []⟩)] [] 0).2
      [⟨"b1", "X", false, none, []⟩, ⟨"b2", "Y", false, none, []⟩] rfl).2.1
      (by decide) ⟨"b2", "Y", false, none, []⟩ (by decide) (by decide)⟩

end storage

namespace sha256

theorem be_length (n x : Nat) : (be n x).length = n := by
  simp [be]

theorem be_lt (n x : Nat) : ∀ v ∈ be n x, v < 256 := by
  intro v hv
  simp only [be, List.mem_map] at hv
  obtain ⟨i, _, rfl⟩ := hv
  exact Nat.mod_lt _ (by norm_num)

/-- The digest has 32 bytes. -/
theorem Sum256_length (data : List Nat) : (Sum256 data).length = 32 := by
  simp [Sum256, be_length]

/-- The four bytes of a word depend on its low 32 bits only. -/
theorem be_four_mod (x : Nat) : be 4 x = be 4 (x % 2 ^ 32) := by
  simp only [be, List.range_succ, List.range_zero, List.nil_append, List.reverse_append,
    List.reverse_cons, List.reverse_nil, List.singleton_append, List.map_cons, List.map_nil,
    Nat.shiftRight_eq_div_pow, List.cons_append]
  norm_num
  refine ⟨?_, ?_, ?_⟩ <;> omega

/-- Every element of the digest is a byte. -/
theorem Sum256_lt (data : List Nat) : ∀ v ∈ Sum256 data, v < 256 := by
  intro v hv
  simp only [Sum256, List.mem_append] at hv
  rcases hv with ((((((h | h) | h) | h) | h) | h) | h) | h <;> exact be_lt _ _ v h

set_option maxRecDepth 100000 in
/-- The FIPS 180-4 test vector for the message `"abc"`. -/
theorem Sum256_abc :
    Sum256 [0x61, 0x62, 0x63]
      = [0xba, 0x78, 0x16, 0xbf, 0x8f, 0x01, 0xcf, 0xea, 0x41, 0x41, 0x40, 0xde, 0x5d, 0xae,
         0x22, 0x23, 0xb0, 0x03, 0x61, 0xa3, 0x96, 0x17, 0x7a, 0x9c, 0xb4, 0x10, 0xff, 0x61,
         0xf2, 0x00, 0x15, 0xad] := by
  decide

set_option maxRecDepth 100000 in
/-- The FIPS 180-4 test vector for the empty message. -/
theorem Sum256_empty :
    Sum256 []
      = [0xe3, 0xb0, 0xc4, 0x42, 0x98, 0xfc, 0x1c, 0x14, 0x9a, 0xfb, 0xf4, 0xc8, 0x99, 0x6f,
         0xb9, 0x24, 0x27, 0xae, 0x41, 0xe4, 0x64, 0x9b, 0x93, 0x4c, 0xa4, 0x95, 0x99, 0x1b,
         0x78, 0x52, 0xb8, 0x55] := by
  decide

end sha256

namespace hex

theorem hextable_getD_mem (i : Nat) : hextable.getD i '0' ∈ hextable := by
  by_cases h : i < hextable.length
  · rw [List.getD_eq_getElem _ _ h]
    exact List.getElem_mem h
  · rw [List.getD_eq_default _ _ (Nat.le_of_not_lt h)]
    decide

/-- The encoding has two characters per byte. -/
theorem EncodeToString_length (src : List Nat) :
    (EncodeToString src).length = 2 * src.length := by
  unfold EncodeToString
  rw [String.length_mk]
  induction src with
  | nil => rfl
  | cons v rest ih =>
    simp only [List.flatMap_cons, List.length_append, List.length_cons, List.length_nil, ih]
    omega

/-- Every character of the encoding is one of `0123456789abcdef`. -/
theorem EncodeToString_mem (src : List Nat) :
    ∀ c ∈ (EncodeToString src).data, c ∈ hextable := by
  intro c hc
  simp only [EncodeToString, List.mem_flatMap, List.mem_cons, List.mem_singleton,
    List.not_mem_nil, or_false] at hc
  obtain ⟨v, _, rfl | rfl⟩ := hc <;> exact hextable_getD_mem _

theorem hextable_getD_inj :
    ∀ i < 16, ∀ j < 16, hextable.getD i '0' = hextable.getD j '0' → i = j := by
  decide

/-- The encoding is injective on byte sequences. -/
theorem EncodeToString_inj (l1 l2 : List Nat) (h1 : ∀ v ∈ l1, v < 256)
    (h2 : ∀ v ∈ l2, v < 256) (h : EncodeToString l1 = EncodeToString l2) : l1 = l2 := by
  unfold EncodeToString at h
  replace h := congrArg String.data h
  simp only at h
  induction l1 generalizing l2 with
  | nil =>
    cases l2 with
    | nil => rfl
    | cons w rest => simp at h
  | cons v rest ih =>
    cases l2 with
    | nil => simp at h
    | cons w rest2 =>
      simp only [List.flatMap_cons, List.cons_append, List.nil_append, List.cons.injEq] at h
      obtain ⟨hhi, hlo, hrest⟩ := h
      have hv : v < 256 := h1 v (by simp)
      have hw : w < 256 := h2 w (by simp)
      have e1 : ∀ x : Nat, x &&& 0x0f = x % 16 := fun x => Nat.and_pow_two_sub_one_eq_mod x 4
      have hi := hextable_getD_inj _ (by rw [Nat.shiftRight_eq_div_pow]; omega) _
        (by rw [Nat.shiftRight_eq_div_pow]; omega) hhi
      have lo := hextable_getD_inj _ (by rw [e1]; omega) _ (by rw [e1]; omega) hlo
      rw [Nat.shiftRight_eq_div_pow, Nat.shiftRight_eq_div_pow] at hi
      rw [e1, e1] at lo
      have hvw : v = w := by omega
      rw [hvw, ih rest2 (fun x hx => h1 x (by simp [hx])) (fun x hx => h2 x (by simp [hx])) hrest]

end hex

namespace keys

/-! ## Claims on `keys.go` -/

/-- Every run of `Run` that reaches the output encoder got a project reference, a JWT
secret, a branch and two signed tokens, and hands over the map literal of the five
name/value pairs. -/
theorem Run_EncodeOutput {Fs ε τ : Type} (env : Env Fs ε τ) (names : CustomName)
    (format : String) (fsys : Fs) (cfg : Auth) (fmt : String) (m : GoMap)
    (h : (Run env names format fsys cfg).2 = Outcome.EncodeOutput fmt m) :
    ∃ projectRef resp json200 jwtSecret branch anonKey serviceRoleKey,
      env.LoadProjectRef fsys = Except.ok projectRef ∧
      env.GetPostgRESTConfigWithResponse projectRef = Except.ok resp ∧
      resp.JSON200 = some json200 ∧ json200.JwtSecret = some jwtSecret ∧
      getGitBranch env fsys = some branch ∧
      env.SignedString (NewJWTToken env projectRef "anon" (env.AddDate env.Now 10 0 0))
        (bytes jwtSecret) = Except.ok anonKey ∧
      env.SignedString (NewJWTToken env projectRef "service_role" (env.AddDate env.Now 10 0 0))
        (bytes jwtSecret) = Except.ok serviceRoleKey ∧
      fmt = format ∧
      m = GoMap.literal [
        (names.DbHost, projectRef ++ "-" ++ branch ++ ".fly.dev"),
        (names.DbPassword, password projectRef jwtSecret branch),
        (names.JWTSecret, jwtSecret),
        (names.AnonKey, anonKey),
        (names.ServiceRoleKey, serviceRoleKey)] := by
  unfold Run at h
  cases h1 : env.LoadProjectRef fsys with
  | error e => simp [h1] at h
  | ok projectRef =>
    simp only [h1] at h
    cases h2 : env.GetPostgRESTConfigWithResponse projectRef with
    | error e => simp [h2] at h
    | ok resp =>
      simp only [h2] at h
      cases h3 : resp.JSON200 with
      | none => simp [h3] at h
      | some json200 =>
        simp only [h3] at h
        cases h4 : json200.JwtSecret with
        | none => simp [h4] at h
        | some jwtSecret =>
          simp only [h4] at h
          cases hb : getGitBranch env fsys with
          | none => simp [hb] at h
          | some branch =>
            simp only [hb] at h
            cases h5 : env.SignedString
                (NewJWTToken env projectRef "anon" (env.AddDate env.Now 10 0 0))
                (bytes jwtSecret) with
            | error e => simp [h5] at h
            | ok anonKey =>
              simp only [h5] at h
              cases h6 : env.SignedString
                  (NewJWTToken env projectRef "service_role" (env.AddDate env.Now 10 0 0))
                  (bytes jwtSecret) with
              | error e => simp [h6] at h
              | ok serviceRoleKey =>
                simp only [h6, Outcome.EncodeOutput.injEq] at h
                exact ⟨projectRef, resp, json200, jwtSecret, branch, anonKey, serviceRoleKey,
                  rfl, h2, h3, h4, rfl, h5, h6, h.1.symm, h.2.symm⟩

/-- What `Run` does once the project reference and the JWT secret are there: it panics
when the branch resolution does; otherwise it returns the error of the first signing that
fails, and calls the encoder when both succeed. -/
theorem Run_signing {Fs ε τ : Type} (env : Env Fs ε τ) (names : CustomName)
    (format : String) (fsys : Fs) (cfg : Auth) (projectRef jwtSecret : String)
    (resp : Response) (json200 : PostgrestConfig)
    (h1 : env.LoadProjectRef fsys = Except.ok projectRef)
    (h2 : env.GetPostgRESTConfigWithResponse projectRef = Except.ok resp)
    (h3 : resp.JSON200 = some json200) (h4 : json200.JwtSecret = some jwtSecret) :
    (Run env names format fsys cfg).2 =
      match getGitBranch env fsys with
      | none => Outcome.nilDereference
      | some branch =>
        match env.SignedString (NewJWTToken env projectRef "anon" (env.AddDate env.Now 10 0 0))
            (bytes jwtSecret) with
        | Except.error e => Outcome.error e
        | Except.ok anonKey =>
          match env.SignedString
              (NewJWTToken env projectRef "service_role" (env.AddDate env.Now 10 0 0))
              (bytes jwtSecret) with
          | Except.error e => Outcome.error e
          | Except.ok serviceRoleKey =>
            Outcome.EncodeOutput format (GoMap.literal [
              (names.DbHost, projectRef ++ "-" ++ branch ++ ".fly.dev"),
              (names.DbPassword, password projectRef jwtSecret branch),
              (names.JWTSecret, jwtSecret),
              (names.AnonKey, anonKey),
              (names.ServiceRoleKey, serviceRoleKey)]) := by
  unfold Run
  simp only [h1, h2, h3, h4]
  cases hb : getGitBranch env fsys with
  | none => rfl
  | some branch =>
    simp only
    cases h5 : env.SignedString (NewJWTToken env projectRef "anon" (env.AddDate env.Now 10 0 0))
        (bytes jwtSecret) with
    | error e => rfl
    | ok anonKey =>
      simp only
      cases h6 : env.SignedString
          (NewJWTToken env projectRef "service_role" (env.AddDate env.Now 10 0 0))
          (bytes jwtSecret) with
      | error e => rfl
      | ok serviceRoleKey => rfl

/-- C6: the database password computed by `Run` is the lower-case hexadecimal encoding of
the SHA-256 digest of the bytes of `projectRef ++ ":" ++ secret ++ ":" ++ branch`; it is a
function of these three strings only (whatever the names, format, clock, signer and
configuration state of the run that reaches the encoder), and it always has 64 characters,
each one of `0123456789abcdef`. -/
theorem C6_password (projectRef secret branch : String) :
    password projectRef secret branch
      = hex.EncodeToString
          (sha256.Sum256 (bytes (projectRef ++ ":" ++ secret ++ ":" ++ branch))) ∧
    (password projectRef secret branch).length = 64 ∧
    (∀ c ∈ (password projectRef secret branch).data, c ∈ "0123456789abcdef".data) ∧
    (∀ (Fs ε τ : Type) (env : Env Fs ε τ) (names : CustomName) (format : String) (fsys : Fs)
      (cfg : Auth) (body fmt : String) (m : GoMap),
      env.LoadProjectRef fsys = Except.ok projectRef →
      env.GetPostgRESTConfigWithResponse projectRef = Except.ok ⟨some ⟨some secret⟩, body⟩ →
      getGitBranch env fsys = some branch →
      (Run env names format fsys cfg).2 = Outcome.EncodeOutput fmt m →
      ∃ host anonKey serviceRoleKey, m = GoMap.literal [
        (names.DbHost, host),
        (names.DbPassword, password projectRef secret branch),
        (names.JWTSecret, secret),
        (names.AnonKey, anonKey),
        (names.ServiceRoleKey, serviceRoleKey)]) := by
  refine ⟨rfl, ?_, ?_, ?_⟩
  · unfold password
    rw [hex.EncodeToString_length, sha256.Sum256_length]
  · exact fun c hc => hex.EncodeToString_mem _ c hc
  · intro Fs ε τ env names format fsys cfg body fmt m h1 h2 hb h
    obtain ⟨p, resp, json200, jwtSecret, br, anonKey, serviceRoleKey, e1, e2, e3, e4, eb, _, _,
      _, hm⟩ := Run_EncodeOutput env names format fsys cfg fmt m h
    rw [h1] at e1
    cases e1
    rw [h2] at e2
    cases e2
    cases e3
    cases e4
    rw [hb] at eb
    cases eb
    exact ⟨_, anonKey, serviceRoleKey, hm⟩

/-- The cases of `getGitBranch`: `"main"` when locating the git root, opening the
repository or reading HEAD returns an error, the short name of the HEAD reference when the
three steps succeed with a non-nil root, and the nil-dereference panic when the root lookup
returns a nil root with a nil error. -/
theorem getGitBranch_cases {Fs ε τ : Type} (env : Env Fs ε τ) (fsys : Fs) :
    (∀ e, env.GetGitRoot fsys = Except.error e → getGitBranch env fsys = some "main") ∧
    (∀ gitRoot e, env.GetGitRoot fsys = Except.ok (some gitRoot) →
      env.PlainOpen gitRoot = Except.error e → getGitBranch env fsys = some "main") ∧
    (∀ gitRoot repo e, env.GetGitRoot fsys = Except.ok (some gitRoot) →
      env.PlainOpen gitRoot = Except.ok repo → env.Head repo = Except.error e →
      getGitBranch env fsys = some "main") ∧
    (∀ gitRoot repo ref, env.GetGitRoot fsys = Except.ok (some gitRoot) →
      env.PlainOpen gitRoot = Except.ok repo → env.Head repo = Except.ok ref →
      getGitBranch env fsys = some (env.Short ref)) ∧
    (env.GetGitRoot fsys = Except.ok none → getGitBranch env fsys = none) := by
  refine ⟨?_, ?_, ?_, ?_, ?_⟩
  · intro e h1
    simp [getGitBranch, h1]
  · intro gitRoot e h1 h2
    simp [getGitBranch, h1, h2]
  · intro gitRoot repo e h1 h2 h3
    simp [getGitBranch, h1, h2, h3]
  · intro gitRoot repo ref h1 h2 h3
    simp [getGitBranch, h1, h2, h3]
  · intro h1
    simp [getGitBranch, h1]

/-- C8 (evaluation at the failing input): when `utils.GetGitRoot` returns a nil root with a
nil error, `getGitBranch` does not return `"main"`: it panics on `*gitRoot`, and so does
`Run`, which calls it. -/
theorem C8_nil_root_panics :
    (nilRootEnv "def").GetGitRoot () = Except.ok none ∧
    getGitBranch (nilRootEnv "def") () = none ∧
    (Run (nilRootEnv "def") defaultNames "env" () ⟨"", "", ""⟩).2 = Outcome.nilDereference :=
  ⟨rfl, rfl, rfl⟩

/-- The joined key of three strings. -/
theorem Join_three (p s b : String) : Join [p, s, b] ":" = p ++ ":" ++ s ++ ":" ++ b := rfl

/-- Two triples that differ in exactly one component have different joined keys. -/
theorem Join_ne (p1 s1 b1 p2 s2 b2 : String)
    (h : (p1 ≠ p2 ∧ s1 = s2 ∧ b1 = b2) ∨ (p1 = p2 ∧ s1 ≠ s2 ∧ b1 = b2) ∨
      (p1 = p2 ∧ s1 = s2 ∧ b1 ≠ b2)) :
    Join [p1, s1, b1] ":" ≠ Join [p2, s2, b2] ":" := by
  rw [Join_three, Join_three]
  intro heq
  have hdata := congrArg String.data heq
  simp only [String.data_append] at hdata
  rcases h with ⟨hp, hs, hb⟩ | ⟨hp, hs, hb⟩ | ⟨hp, hs, hb⟩
  · subst hs hb
    simp only [List.append_assoc] at hdata
    exact hp (String.ext (List.append_cancel_right hdata))
  · subst hp hb
    simp only [List.append_assoc] at hdata
    have h1 := List.append_cancel_left (List.append_cancel_left hdata)
    exact hs (String.ext (List.append_cancel_right h1))
  · subst hp hs
    exact hb (String.ext (List.append_cancel_left hdata))

/-- The digests of two messages whose final hash states agree in their low 32 bits agree. -/
theorem Sum256_eq_of_words (x y : List Nat)
    (h : ((sha256.sum x).h0 % 2 ^ 32, (sha256.sum x).h1 % 2 ^ 32, (sha256.sum x).h2 % 2 ^ 32,
          (sha256.sum x).h3 % 2 ^ 32, (sha256.sum x).h4 % 2 ^ 32, (sha256.sum x).h5 % 2 ^ 32,
          (sha256.sum x).h6 % 2 ^ 32, (sha256.sum x).h7 % 2 ^ 32)
       = ((sha256.sum y).h0 % 2 ^ 32, (sha256.sum y).h1 % 2 ^ 32, (sha256.sum y).h2 % 2 ^ 32,
          (sha256.sum y).h3 % 2 ^ 32, (sha256.sum y).h4 % 2 ^ 32, (sha256.sum y).h5 % 2 ^ 32,
          (sha256.sum y).h6 % 2 ^ 32, (sha256.sum y).h7 % 2 ^ 32)) :
    sha256.Sum256 x = sha256.Sum256 y := by
  simp only [Prod.mk.injEq] at h
  obtain ⟨e0, e1, e2, e3, e4, e5, e6, e7⟩ := h
  unfold sha256.Sum256
  simp only
  rw [sha256.be_four_mod (sha256.sum x).h0, sha256.be_four_mod (sha256.sum x).h1,
    sha256.be_four_mod (sha256.sum x).h2, sha256.be_four_mod (sha256.sum x).h3,
    sha256.be_four_mod (sha256.sum x).h4, sha256.be_four_mod (sha256.sum x).h5,
    sha256.be_four_mod (sha256.sum x).h6, sha256.be_four_mod (sha256.sum x).h7,
    e0, e1, e2, e3, e4, e5, e6, e7,
    ← sha256.be_four_mod, ← sha256.be_four_mod, ← sha256.be_four_mod, ← sha256.be_four_mod,
    ← sha256.be_four_mod, ← sha256.be_four_mod, ← sha256.be_four_mod, ← sha256.be_four_mod]

theorem branchOfLength_inj (x y : Nat) (h : branchOfLength x = branchOfLength y) : x = y := by
  have := congrArg String.length h
  simpa [branchOfLength, String.length] using this

/-- C7 (refutation): it is not the case that any two input triples which differ in exactly
one component have different derived passwords. Already among the triples
`("", "", "a…a")`, which differ in the branch only, two have the same password, since there
are infinitely many of them and a digest has 256 bits. -/
theorem C7_counterexample :
    ¬ ∀ p1 s1 b1 p2 s2 b2 : String,
      ((p1 ≠ p2 ∧ s1 = s2 ∧ b1 = b2) ∨ (p1 = p2 ∧ s1 ≠ s2 ∧ b1 = b2) ∨
        (p1 = p2 ∧ s1 = s2 ∧ b1 ≠ b2)) →
      password p1 s1 b1 ≠ password p2 s2 b2 := by
  intro hall
  obtain ⟨x, y, hxy, hf⟩ := Finite.exists_ne_map_eq_of_infinite
    (fun n : ℕ => stateWords (bytes (Join ["", "", branchOfLength n] ":")))
  have hne : branchOfLength x ≠ branchOfLength y := fun h => hxy (branchOfLength_inj x y h)
  apply hall "" "" (branchOfLength x) "" "" (branchOfLength y) (Or.inr (Or.inr ⟨rfl, rfl, hne⟩))
  unfold password
  simp only
  congr 1
  apply Sum256_eq_of_words
  simp only [stateWords, Prod.mk.injEq, Fin.mk.injEq] at hf
  simp only [Prod.mk.injEq]
  exact hf

set_option maxRecDepth 100000 in
/-- The passwords of the two triples of the example. -/
theorem password_examples :
    password "abc" "def" "main"
      = "6e412c16b8f44e62b8907210ff61935a9a05bfcc7a5817c61ae040d1bce58e43" ∧
    password "abc" "def" "feature"
      = "da96078f1d045f691b666a49e596158e33d1eade2fac1537f6f886971ad5315c" := by
  decide

/-- C7 (amended): two input triples that differ in exactly one component have different
joined keys `projectRef:secret:branch`, and their passwords are equal exactly when SHA-256
gives the two keys the same digest; the passwords derived from `("abc","def","main")` and
`("abc","def","feature")` are different strings. -/
theorem C7_keys_differ (p1 s1 b1 p2 s2 b2 : String)
    (h : (p1 ≠ p2 ∧ s1 = s2 ∧ b1 = b2) ∨ (p1 = p2 ∧ s1 ≠ s2 ∧ b1 = b2) ∨
      (p1 = p2 ∧ s1 = s2 ∧ b1 ≠ b2)) :
    Join [p1, s1, b1] ":" ≠ Join [p2, s2, b2] ":" ∧
    (password p1 s1 b1 = password p2 s2 b2 ↔
      sha256.Sum256 (bytes (Join [p1, s1, b1] ":"))
        = sha256.Sum256 (bytes (Join [p2, s2, b2] ":"))) ∧
    password "abc" "def" "main" ≠ password "abc" "def" "feature" := by
  refine ⟨Join_ne p1 s1 b1 p2 s2 b2 h, ⟨?_, ?_⟩, ?_⟩
  · intro heq
    exact hex.EncodeToString_inj _ _ (sha256.Sum256_lt _) (sha256.Sum256_lt _) heq
  · intro heq
    unfold password
    simp only [heq]
  · rw [password_examples.1, password_examples.2]
    decide

/-- C7 (witness): the triples `("abc","def","main")` and `("abc","def","feature")` differ in
the branch only. -/
theorem C7_keys_differ_witness :
    Join ["abc", "def", "main"] ":" ≠ Join ["abc", "def", "feature"] ":" ∧
    password "abc" "def" "main" ≠ password "abc" "def" "feature" :=
  have h := C7_keys_differ "abc" "def" "main" "abc" "def" "feature"
    (Or.inr (Or.inr ⟨rfl, rfl, by decide⟩))
  ⟨h.1, h.2.2⟩

/-- A map literal with five pairwise distinct keys has these five entries. -/
theorem GoMap.literal_five (k1 k2 k3 k4 k5 v1 v2 v3 v4 v5 : String)
    (h : [k1, k2, k3, k4, k5].Nodup) :
    GoMap.literal [(k1, v1), (k2, v2), (k3, v3), (k4, v4), (k5, v5)]
      = [(k1, v1), (k2, v2), (k3, v3), (k4, v4), (k5, v5)] := by
  simp only [List.nodup_cons, List.mem_cons, List.mem_singleton, List.not_mem_nil, not_or,
    or_false, List.nodup_nil, and_true, not_false_eq_true] at h
  obtain ⟨⟨h12, h13, h14, h15⟩, ⟨h23, h24, h25⟩, ⟨h34, h35⟩, h45⟩ := h
  simp [GoMap.literal, GoMap.set, h12, h13, h14, h15, h23, h24, h25, h34, h35, h45]

/-- C9 (counterexample): with the names `DbPassword` and `JWTSecret` both `"SECRET"`, the
run reaches the encoder with a mapping of four entries, in which `"SECRET"` maps to the JWT
secret and the derived password is absent. -/
theorem C9_counterexample :
    (Run (exampleEnv "def") ⟨"URL", "SECRET", "SECRET", "ANON", "SERVICE"⟩ "env" ()
        ⟨"", "", ""⟩).2
      = Outcome.EncodeOutput "env" [("URL", "abc-main.fly.dev"), ("SECRET", "def"),
          ("ANON", "abc.anon.646566"), ("SERVICE", "abc.service_role.646566")] := by
  decide

/-- C9 (amended): every run of `Run` that reaches output assembly hands the encoder the map
literal of the five pairs name/value in source order, a later pair replacing an earlier
one of the same name; when the five names of `names` are pairwise distinct, the mapping has
exactly five entries: `names.DbHost` maps to `"{projectRef}-{branch}.fly.dev"`,
`names.DbPassword` to the derived password, `names.JWTSecret` to the shared secret,
`names.AnonKey` to the signed anon token and `names.ServiceRoleKey` to the signed
service_role token. -/
theorem C9_five_entries {Fs ε τ : Type} (env : Env Fs ε τ) (names : CustomName)
    (format : String) (fsys : Fs) (cfg : Auth) (fmt : String) (m : GoMap)
    (hrun : (Run env names format fsys cfg).2 = Outcome.EncodeOutput fmt m)
    (hdistinct : [names.DbHost, names.DbPassword, names.JWTSecret, names.AnonKey,
      names.ServiceRoleKey].Nodup) :
    ∃ projectRef resp json200 jwtSecret branch anonKey serviceRoleKey,
      env.LoadProjectRef fsys = Except.ok projectRef ∧
      env.GetPostgRESTConfigWithResponse projectRef = Except.ok resp ∧
      resp.JSON200 = some json200 ∧ json200.JwtSecret = some jwtSecret ∧
      getGitBranch env fsys = some branch ∧
      env.SignedString (NewJWTToken env projectRef "anon" (env.AddDate env.Now 10 0 0))
        (bytes jwtSecret) = Except.ok anonKey ∧
      env.SignedString (NewJWTToken env projectRef "service_role" (env.AddDate env.Now 10 0 0))
        (bytes jwtSecret) = Except.ok serviceRoleKey ∧
      m.length = 5 ∧
      m.get names.DbHost = some (projectRef ++ "-" ++ branch ++ ".fly.dev") ∧
      m.get names.DbPassword = some (password projectRef jwtSecret branch) ∧
      m.get names.JWTSecret = some jwtSecret ∧
      m.get names.AnonKey = some anonKey ∧
      m.get names.ServiceRoleKey = some serviceRoleKey := by
  obtain ⟨projectRef, resp, json200, jwtSecret, branch, anonKey, serviceRoleKey, e1, e2, e3, e4,
    eb, e5, e6, _, hm⟩ := Run_EncodeOutput env names format fsys cfg fmt m hrun
  refine ⟨projectRef, resp, json200, jwtSecret, branch, anonKey, serviceRoleKey, e1, e2, e3, e4,
    eb, e5, e6, ?_⟩
  rw [GoMap.literal_five _ _ _ _ _ _ _ _ _ _ hdistinct] at hm
  subst hm
  simp only [List.nodup_cons, List.mem_cons, List.mem_singleton, List.not_mem_nil, not_or,
    or_false, List.nodup_nil, and_true, not_false_eq_true] at hdistinct
  obtain ⟨⟨h12, h13, h14, h15⟩, ⟨h23, h24, h25⟩, ⟨h34, h35⟩, h45⟩ := hdistinct
  refine ⟨rfl, ?_, ?_, ?_, ?_, ?_⟩ <;>
    simp [GoMap.get, List.find?, h12, h13, h14, h15, h23, h24, h25, h34, h35, h45]

set_option maxRecDepth 100000 in
/-- C9 (witness): the run of the example environment with the default names reaches the
encoder with five entries. -/
theorem C9_five_entries_witness :
    (Run (exampleEnv "def") defaultNames "env" () ⟨"", "", ""⟩).2
      = Outcome.EncodeOutput "env" [
          ("NEXT_PUBLIC_SUPABASE_URL", "abc-main.fly.dev"),
          ("SUPABASE_DB_PASSWORD",
            "6e412c16b8f44e62b8907210ff61935a9a05bfcc7a5817c61ae040d1bce58e43"),
          ("SUPABASE_AUTH_JWT_SECRET", "def"),
          ("SUPABASE_AUTH_ANON_KEY", "abc.anon.646566"),
          ("SUPABASE_AUTH_SERVICE_ROLE_KEY", "abc.service_role.646566")] ∧
    (List.length [
          ("NEXT_PUBLIC_SUPABASE_URL", "abc-main.fly.dev"),
          ("SUPABASE_DB_PASSWORD",
            "6e412c16b8f44e62b8907210ff61935a9a05bfcc7a5817c61ae040d1bce58e43"),
          ("SUPABASE_AUTH_JWT_SECRET", "def"),
          ("SUPABASE_AUTH_ANON_KEY", "abc.anon.646566"),
          ("SUPABASE_AUTH_SERVICE_ROLE_KEY", "abc.service_role.646566")]) = 5 :=
  have hrun : (Run (exampleEnv "def") defaultNames "env" () ⟨"", "", ""⟩).2
      = Outcome.EncodeOutput "env" [
          ("NEXT_PUBLIC_SUPABASE_URL", "abc-main.fly.dev"),
          ("SUPABASE_DB_PASSWORD",
            "6e412c16b8f44e62b8907210ff61935a9a05bfcc7a5817c61ae040d1bce58e43"),
          ("SUPABASE_AUTH_JWT_SECRET", "def"),
          ("SUPABASE_AUTH_ANON_KEY", "abc.anon.646566"),
          ("SUPABASE_AUTH_SERVICE_ROLE_KEY", "abc.service_role.646566")] := by decide
  match C9_five_entries (exampleEnv "def") defaultNames "env" () ⟨"", "", ""⟩ "env" _
    hrun (by decide) with
  | ⟨_, _, _, _, _, _, _, _, _, _, _, _, _, _, hlen, _⟩ => ⟨hrun, hlen⟩

set_option maxRecDepth 100000 in
/-- C10 (counterexample): the control plane returns the empty string as JWT secret and the
signer accepts every key. `Run` returns no signing error: it reaches the encoder with the
five entries, the two tokens being signed with the empty key. -/
theorem C10_counterexample :
    (exampleEnv "").GetPostgRESTConfigWithResponse "abc" = Except.ok ⟨some ⟨some ""⟩, ""⟩ ∧
    (Run (exampleEnv "") defaultNames "env" () ⟨"", "", ""⟩).2
      = Outcome.EncodeOutput "env" [
          ("NEXT_PUBLIC_SUPABASE_URL", "abc-main.fly.dev"),
          ("SUPABASE_DB_PASSWORD",
            "b16c857ea91ed5004242ffddf3d1ab540473c01977e43e25231c0de9954bd382"),
          ("SUPABASE_AUTH_JWT_SECRET", ""),
          ("SUPABASE_AUTH_ANON_KEY", "abc.anon."),
          ("SUPABASE_AUTH_SERVICE_ROLE_KEY", "abc.service_role.")] :=
  ⟨rfl, by decide⟩

/-- C10 (amended): `Run` makes no check of the shared secret of its own; it hands the bytes
of the secret (none for the empty secret) to the signer as key. Once the project reference
and the secret are obtained and the branch is resolved, `Run` returns a signing error from
the anon-token step, and produces no output mapping, exactly when the signer returns an
error for the anon token; it returns the error of the service_role step when only that
signing fails; and when the signer accepts both tokens the output mapping is produced, also
for the empty secret. When the branch resolution panics, so does `Run`, before any
signing. -/
theorem C10_signing_error {Fs ε τ : Type} (env : Env Fs ε τ) (names : CustomName)
    (format : String) (fsys : Fs) (cfg : Auth) (projectRef jwtSecret : String)
    (resp : Response) (json200 : PostgrestConfig)
    (h1 : env.LoadProjectRef fsys = Except.ok projectRef)
    (h2 : env.GetPostgRESTConfigWithResponse projectRef = Except.ok resp)
    (h3 : resp.JSON200 = some json200) (h4 : json200.JwtSecret = some jwtSecret) :
    (jwtSecret = "" → bytes jwtSecret = []) ∧
    (getGitBranch env fsys = none →
      (Run env names format fsys cfg).2 = Outcome.nilDereference) ∧
    (∀ branch, getGitBranch env fsys = some branch →
      (∀ e, env.SignedString (NewJWTToken env projectRef "anon" (env.AddDate env.Now 10 0 0))
          (bytes jwtSecret) = Except.error e →
        (Run env names format fsys cfg).2 = Outcome.error e) ∧
      (∀ anonKey e,
        env.SignedString (NewJWTToken env projectRef "anon" (env.AddDate env.Now 10 0 0))
          (bytes jwtSecret) = Except.ok anonKey →
        env.SignedString
          (NewJWTToken env projectRef "service_role" (env.AddDate env.Now 10 0 0))
          (bytes jwtSecret) = Except.error e →
        (Run env names format fsys cfg).2 = Outcome.error e) ∧
      (∀ anonKey serviceRoleKey,
        env.SignedString (NewJWTToken env projectRef "anon" (env.AddDate env.Now 10 0 0))
          (bytes jwtSecret) = Except.ok anonKey →
        env.SignedString
          (NewJWTToken env projectRef "service_role" (env.AddDate env.Now 10 0 0))
          (bytes jwtSecret) = Except.ok serviceRoleKey →
        (Run env names format fsys cfg).2 = Outcome.EncodeOutput format (GoMap.literal [
          (names.DbHost, projectRef ++ "-" ++ branch ++ ".fly.dev"),
          (names.DbPassword, password projectRef jwtSecret branch),
          (names.JWTSecret, jwtSecret),
          (names.AnonKey, anonKey),
          (names.ServiceRoleKey, serviceRoleKey)]))) := by
  have hrun := Run_signing env names format fsys cfg projectRef jwtSecret resp json200 h1 h2 h3 h4
  refine ⟨?_, ?_, ?_⟩
  · intro h
    subst h
    rfl
  · intro hb
    rw [hrun, hb]
  · intro branch hb
    refine ⟨?_, ?_, ?_⟩
    · intro e h5
      rw [hrun, hb]
      simp only [h5]
    · intro anonKey e h5 h6
      rw [hrun, hb]
      simp only [h5, h6]
    · intro anonKey serviceRoleKey h5 h6
      rw [hrun, hb]
      simp only [h5, h6]

/-- C10 (witness): with a signer that rejects the empty key and the empty secret, the anon
signing fails and `Run` returns its error; the key handed to the signer is empty. -/
theorem C10_signing_error_witness :
    bytes "" = [] ∧
    (strictEnv "").SignedString
        (NewJWTToken (strictEnv "") "abc" "anon" ((strictEnv "").AddDate (strictEnv "").Now 10 0 0))
        (bytes "") = Except.error "key is empty" ∧
    (Run (strictEnv "") defaultNames "env" () ⟨"", "", ""⟩).2 = Outcome.error "key is empty" :=
  have h := C10_signing_error (strictEnv "") defaultNames "env" () ⟨"", "", ""⟩ "abc" ""
    ⟨some ⟨some ""⟩, ""⟩ ⟨some ""⟩ rfl rfl rfl rfl
  ⟨h.1 rfl, rfl, (h.2.2 "main" rfl).1 "key is empty" rfl⟩

end keys
